import Mathlib

/-!
Verification development for a mini-Pascal interpreter pipeline
(`src/interpreter.py`): Lexer, Parser/AST, Semantic Analyzer, Interpreter.

The Python source is shallowly embedded below.  Conventions:
* the raw source text is a `List Char`; the lexer's `pos` cursor is modelled
  by the remaining suffix of the text (Python keeps an index; once the index
  passes the end, `current_char` is `None`, which corresponds to the empty
  list here — `advance` on the empty list stays at the empty list, exactly
  like Python's index moving past the end with `current_char` stuck at None);
* Python `int` is `Int`; Python `float` values are carried as rationals `ℚ`.
  `float()` conversion and `/` division in `visit_BinOp` — the float
  operations the claims exercise — round to the nearest IEEE-754 double via
  `dblRound` (round-to-nearest, ties-to-even, binary64 significand and
  subnormal range, with CPython's `OverflowError` at `2^1024`).  `+`, `-`,
  `*`, `//` *on float operands* and the value a `REAL_CONST` literal denotes
  (`realValue`) are kept exact-rational; that elision is immaterial below:
  no claim evaluates those operations on float operands, and value claims
  name only numbers that are exactly representable as doubles;
* fallible code returns `Option`/`Except`/explicit result inductives;
* functions that can fail to terminate in Python (the `skip_comment` loop)
  are given a fuel-indexed model plus a total model in which the constructor
  `hang` marks exactly the inputs on which the Python loop never exits;
* token line/column metadata is elided: it is only interpolated into error
  message strings and never influences control flow.
-/

/-- Mirror of the Python `ErrorCode` enum. -/
inductive ErrorCode where
  | UNEXPECTED_TOKEN
  | ID_NOT_FOUND
  | DUPLICATE_ID
deriving DecidableEq, Repr

/-- Mirror of the Python `TokenType` enum (member names kept verbatim). -/
inductive TokenType where
  | PLUS | MINUS | MUL | FLOAT_DIV | LPAREN | RPAREN | SEMI | DOT | COLON
  | COMMA | LESS | LESSEQUAL | NOTEQUAL | GREATER | GREATEREQUAL | EQUAL
  | LBRACK | RBRACK | QUOTE
  | PROGRAM | INTEGER | REAL | CHAR | INTEGER_DIV | VAR | PROCEDURE | BEGIN
  | AND | ARRAY | MOD | DO | ELSE | IF | NOT | OF | OR | ORD | READ | READLN
  | THEN | WHILE | WRITE | WRITELN | END
  | ID | INTEGER_CONST | REAL_CONST | STRING_CONST | CHAR_CONST | ASSIGN | EOF
deriving DecidableEq, Repr

/-- The Python enum member's `.name` attribute (used as a dict key when
`visit_WRITE`/`visit_READ` insert the raw `TokenType` into a scope). -/
def TokenType.enumName : TokenType → String
  | .PLUS => "PLUS" | .MINUS => "MINUS" | .MUL => "MUL"
  | .FLOAT_DIV => "FLOAT_DIV" | .LPAREN => "LPAREN" | .RPAREN => "RPAREN"
  | .SEMI => "SEMI" | .DOT => "DOT" | .COLON => "COLON" | .COMMA => "COMMA"
  | .LESS => "LESS" | .LESSEQUAL => "LESSEQUAL" | .NOTEQUAL => "NOTEQUAL"
  | .GREATER => "GREATER" | .GREATEREQUAL => "GREATEREQUAL"
  | .EQUAL => "EQUAL" | .LBRACK => "LBRACK" | .RBRACK => "RBRACK"
  | .QUOTE => "QUOTE" | .PROGRAM => "PROGRAM" | .INTEGER => "INTEGER"
  | .REAL => "REAL" | .CHAR => "CHAR" | .INTEGER_DIV => "INTEGER_DIV"
  | .VAR => "VAR" | .PROCEDURE => "PROCEDURE" | .BEGIN => "BEGIN"
  | .AND => "AND" | .ARRAY => "ARRAY" | .MOD => "MOD" | .DO => "DO"
  | .ELSE => "ELSE" | .IF => "IF" | .NOT => "NOT" | .OF => "OF" | .OR => "OR"
  | .ORD => "ORD" | .READ => "READ" | .READLN => "READLN" | .THEN => "THEN"
  | .WHILE => "WHILE" | .WRITE => "WRITE" | .WRITELN => "WRITELN"
  | .END => "END" | .ID => "ID" | .INTEGER_CONST => "INTEGER_CONST"
  | .REAL_CONST => "REAL_CONST" | .STRING_CONST => "STRING_CONST"
  | .CHAR_CONST => "CHAR_CONST" | .ASSIGN => "ASSIGN" | .EOF => "EOF"

/-- The dynamically typed `Token.value` slot: `None`, an `int`, a `float`
(modelled as `ℚ`), or a string. -/
inductive TokenValue where
  | vNone
  | vInt (n : Int)
  | vRat (q : ℚ)
  | vStr (s : String)
deriving DecidableEq, Repr

/-- A token: kind plus value.  (Line/column metadata elided, see header.) -/
structure Token where
  type : TokenType
  value : TokenValue
deriving DecidableEq, Repr

/-- `RESERVED_KEYWORDS`: maps the *uppercased lexeme* (the enum member's
`value` for members `PROGRAM` through `END`) to the token type. -/
def reservedKeyword (s : String) : Option TokenType :=
  if s = "PROGRAM" then some .PROGRAM
  else if s = "INTEGER" then some .INTEGER
  else if s = "REAL" then some .REAL
  else if s = "CHAR" then some .CHAR
  else if s = "DIV" then some .INTEGER_DIV
  else if s = "VAR" then some .VAR
  else if s = "PROCEDURE" then some .PROCEDURE
  else if s = "BEGIN" then some .BEGIN
  else if s = "AND" then some .AND
  else if s = "ARRAY" then some .ARRAY
  else if s = "MOD" then some .MOD
  else if s = "DO" then some .DO
  else if s = "ELSE" then some .ELSE
  else if s = "IF" then some .IF
  else if s = "NOT" then some .NOT
  else if s = "OF" then some .OF
  else if s = "OR" then some .OR
  else if s = "ORD" then some .ORD
  else if s = "READ" then some .READ
  else if s = "READLN" then some .READLN
  else if s = "THEN" then some .THEN
  else if s = "WHILE" then some .WHILE
  else if s = "WRITE" then some .WRITE
  else if s = "WRITELN" then some .WRITELN
  else if s = "END" then some .END
  else none

/-- Python `str.isspace` restricted to the ASCII whitespace characters. -/
def pyIsSpace (c : Char) : Bool :=
  c = ' ' ∨ c = '\t' ∨ c = '\n' ∨ c = '\x0d' ∨ c = '\x0b' ∨ c = '\x0c'

/-- The single-character token fallback `TokenType(self.current_char)`:
only members whose `value` is that one character match. -/
def singleCharTokenType (c : Char) : Option TokenType :=
  if c = '+' then some .PLUS
  else if c = '-' then some .MINUS
  else if c = '*' then some .MUL
  else if c = '/' then some .FLOAT_DIV
  else if c = '(' then some .LPAREN
  else if c = ')' then some .RPAREN
  else if c = ';' then some .SEMI
  else if c = '.' then some .DOT
  else if c = ':' then some .COLON
  else if c = ',' then some .COMMA
  else if c = '<' then some .LESS
  else if c = '>' then some .GREATER
  else if c = '=' then some .EQUAL
  else if c = '[' then some .LBRACK
  else if c = ']' then some .RBRACK
  else if c = '\'' then some .QUOTE
  else none

/-- Value of a run of decimal digit characters, like Python `int(result)`. -/
def digitsToNat (l : List Char) : Nat :=
  l.foldl (fun a c => a * 10 + (c.toNat - '0'.toNat)) 0

/-- Value of Python `float(intpart + "." + fracpart)` as an exact rational. -/
def realValue (intDigits fracDigits : List Char) : ℚ :=
  (digitsToNat intDigits : ℚ) + (digitsToNat fracDigits : ℚ) / (10 ^ fracDigits.length : ℚ)

/-- `Lexer.skip_comment`, total model.  The Python loop
`while self.current_char != '}': self.advance()` runs forever when no `}`
remains (advancing past end-of-input leaves `current_char` at None forever);
that divergence is modelled by `none`.  `some rest` consumes up to and
including the closing brace. -/
def skipComment (l : List Char) : Option (List Char) :=
  match l.dropWhile (fun c => !(c = '}')) with
  | [] => none
  | _ :: r => some r

/-- `Lexer.skip_comment`, fuel-indexed model: one fuel unit per loop
iteration, faithfully including the iterations past end of input.  `none`
means the loop has not exited within `fuel` iterations. -/
def skipCommentFuel (f : Nat) (l : List Char) : Option (List Char) :=
  if l.head? = some '}' then some (l.drop 1)
  else
    match f with
    | 0 => none
    | g + 1 => skipCommentFuel g (l.drop 1)

/-- `Lexer.string_builder` (called after the opening quote was consumed):
consumes characters up to the closing quote.  When end of input arrives
before a closing quote, the Python method falls through its trailing `if`
and implicitly returns `None`: modelled by `none`. -/
def stringBuilder (l : List Char) : Option (Token × List Char) :=
  let body := l.takeWhile (fun c => !(c = '\''))
  match l.dropWhile (fun c => !(c = '\'')) with
  | '\'' :: r => some (⟨.STRING_CONST, .vStr (String.mk body)⟩, r)
  | _ => none

/-- `Lexer.number`: a digit run, extended to a `REAL_CONST` exactly when the
next character is `.` and the character after that is *not* another `.`
(the `..` array-range marker check).  Note the Python code does **not**
require a digit after the dot: `7.` followed by anything but a second dot
becomes `REAL_CONST(float("7."))`. -/
def lexNumber (l : List Char) : Token × List Char :=
  let ds := l.takeWhile Char.isDigit
  let r1 := l.dropWhile Char.isDigit
  match r1 with
  | '.' :: r2 =>
    if r2.head? = some '.' then
      (⟨.INTEGER_CONST, .vInt (digitsToNat ds : Int)⟩, r1)
    else
      let fs := r2.takeWhile Char.isDigit
      (⟨.REAL_CONST, .vRat (realValue ds fs)⟩, r2.dropWhile Char.isDigit)
  | _ => (⟨.INTEGER_CONST, .vInt (digitsToNat ds : Int)⟩, r1)

/-- `Lexer._id`: consume an alphanumeric run; keyword lookup is on the
uppercased lexeme; keyword tokens carry the uppercase spelling, plain
identifiers keep the original spelling. -/
def lexId (l : List Char) : Token × List Char :=
  let run := l.takeWhile Char.isAlphanum
  let rest := l.dropWhile Char.isAlphanum
  let up := String.mk (run.map Char.toUpper)
  match reservedKeyword up with
  | some tt => (⟨tt, .vStr up⟩, rest)
  | none => (⟨.ID, .vStr (String.mk run)⟩, rest)

/-- Result of one `Lexer.get_next_token` call. -/
inductive LexResult where
  | tok (t : Token) (rest : List Char)
  | lexErr (c : Char)        -- `Lexer.error()` raises `LexerError`
  | noneReturned             -- `string_builder` returned Python `None`
  | hang                     -- `skip_comment` never terminates
  | outOfFuel
deriving DecidableEq, Repr

/-- `Lexer.get_next_token`.  Fuel is consumed only by the two `continue`
paths (whitespace skipping, comment skipping); every other branch returns
directly, so those equations hold for every fuel value. -/
def getNextToken (fuel : Nat) (l : List Char) : LexResult :=
  match l with
  | [] => .tok ⟨.EOF, .vNone⟩ []
  | c :: rest =>
    if c = ':' ∧ rest.head? = some '=' then
      .tok ⟨.ASSIGN, .vStr ":="⟩ (rest.drop 1)
    else if pyIsSpace c then
      match fuel with
      | 0 => .outOfFuel
      | f + 1 => getNextToken f ((c :: rest).dropWhile pyIsSpace)
    else if c = '\'' then
      match stringBuilder rest with
      | some (t, r) => .tok t r
      | none => .noneReturned
    else if c = '{' then
      match skipComment rest with
      | some r =>
        match fuel with
        | 0 => .outOfFuel
        | f + 1 => getNextToken f r
      | none => .hang
    else if c.isAlpha then
      let (t, r) := lexId (c :: rest)
      .tok t r
    else if c.isDigit then
      let (t, r) := lexNumber (c :: rest)
      .tok t r
    else
      match singleCharTokenType c with
      | some tt => .tok ⟨tt, .vStr (String.mk [c])⟩ rest
      | none => .lexErr c

/-- Keys of the Python dicts used for symbol tables: either a runtime value
(identifier strings, but any token value can flow in) or a raw `TokenType`
enum member (inserted by `visit_IfStatement` / `visit_WhileStatement`). -/
inductive PKey where
  | ofVal (v : TokenValue)
  | ofTok (t : TokenType)
deriving DecidableEq, Repr

/-- Symbols (`Symbol` subclasses), plus the raw `TokenType` objects that
`visit_WRITE`/`visit_READ` insert directly into the scope.  A
`ProcedureSymbol` is mutated in place in Python (its `formal_params` and
`block_ast` are filled in after it is inserted and after call sites may
already hold a reference to it); that aliasing is modelled by giving each
procedure symbol a unique numeric id into a side table (`ProcInfo`). -/
inductive PySymbol where
  | BuiltinTypeSymbol (name : String)
  | VarSymbol (name : TokenValue) (ty : Option PySymbol)
  | ProcedureSymbol (name : TokenValue) (id : Nat)
  | IF_Symbol (t : TokenType)
  | RawTokenType (t : TokenType)

/-- The dict key `symbol.name` used by `ScopedSymbolTable.insert`.
For a raw `TokenType`, Python's `symbol.name` is the enum member name. -/
def PySymbol.key : PySymbol → PKey
  | .BuiltinTypeSymbol n => .ofVal (.vStr n)
  | .VarSymbol n _ => .ofVal n
  | .ProcedureSymbol n _ => .ofVal n
  | .IF_Symbol t => .ofTok t
  | .RawTokenType t => .ofVal (.vStr t.enumName)

/-- AST node variants, one constructor per Python AST class.
`ProcedureCall.annot` is the `proc_symbol` annotation slot (filled by the
Semantic Analyzer, `None` after parsing). -/
inductive AST where
  | Program (name : TokenValue) (block : AST)
  | Block (decls : List AST) (comp : AST)
  | VarDecl (varNode : AST) (typeNode : AST)
  | TypeNode (tok : Token)
  | ArrayNode (startLen endLen : TokenValue) (value : TokenValue)
  | Param (varNode : AST) (typeNode : AST)
  | ProcedureDecl (procName : TokenValue) (params : List AST) (block : AST)
  | ProcedureCall (procName : TokenValue) (args : List AST) (tok : Token)
      (annot : Option PySymbol)
  | Compound (children : List AST)
  | Assign (left : AST) (tok : Token) (right : AST)
  | IfStatement (name : TokenType) (rel : AST) (thenS : AST)
      (elseS : Option AST)
  | WhileStatement (name : TokenType) (rel : AST) (body : AST)
  | Relation (left : AST) (tok : Token) (right : AST)
  | BinOp (left : AST) (op : Token) (right : AST)
  | UnaryOp (op : Token) (e : AST)
  | Num (tok : Token)
  | Str (tok : Token)
  | Var (tok : Token)
  | WRITE (op : TokenType) (value : TokenValue)
  | READ (op : TokenType) (params : List Token)
  | NoOp

/-- Terminal failures of the lex/parse front end.  `parserError` is the
`ParserError` raised by `Parser.error`; the `py…` constructors model Python
exceptions that escape uncaught (`raise Exception`, `AttributeError` on a
`None`/list attribute access, `UnboundLocalError`), and `noneTokenCrash`
models the `AttributeError` that follows `get_next_token` returning `None`
after an unterminated string. -/
inductive Failure where
  | lexError (c : Char)
  | lexHang
  | noneTokenCrash
  | parserError (code : ErrorCode) (tok : Token)
  | pyException (site : String)
  | pyAttributeError (site : String)
  | outOfFuel
deriving DecidableEq, Repr

/-- Parser state: the one-token lookahead plus the lexer's remaining input
(`self.lexer.current_char` is `rest.head?`). -/
structure PSt where
  cur : Token
  rest : List Char
deriving Repr

/-- Pull one token from the lexer (with always-sufficient lexer fuel). -/
def nextTokenFrom (l : List Char) : Except Failure (Token × List Char) :=
  match getNextToken (l.length + 1) l with
  | .tok t r => .ok (t, r)
  | .lexErr c => .error (.lexError c)
  | .noneReturned => .error (.noneTokenCrash)
  | .hang => .error (.lexHang)
  | .outOfFuel => .error (.outOfFuel)

/-- `Parser.get_next_token` / advancing the lookahead. -/
def pAdvance (st : PSt) : Except Failure PSt := do
  let (t, r) ← nextTokenFrom st.rest
  pure ⟨t, r⟩

/-- `Parser.eat`: consume the current token if its type matches, else raise
`UNEXPECTED_TOKEN` carrying the offending token. -/
def eat (tt : TokenType) (st : PSt) : Except Failure PSt :=
  if st.cur.type = tt then pAdvance st
  else .error (.parserError .UNEXPECTED_TOKEN st.cur)

/-- `Parser.variable`: build a `Var` from the current `ID` token (returned
here as the token itself; the node is `AST.Var tok`). -/
def parseVariable (st : PSt) : Except Failure (Token × PSt) := do
  let tok := st.cur
  let st ← eat .ID st
  pure (tok, st)

/-- `Parser.type_spec` (including the `ARRAY [a..b] OF INTEGER` form; a
non-`INTEGER` element type leaves Python's local `type` unbound and crashes
with `UnboundLocalError` when `Array(...)` is built). -/
def parseTypeSpec (st : PSt) : Except Failure (AST × PSt) := do
  let token := st.cur
  if st.cur.type = .INTEGER then
    let st ← eat .INTEGER st
    pure (.TypeNode token, st)
  else if st.cur.type = .REAL then
    let st ← eat .REAL st
    pure (.TypeNode token, st)
  else if st.cur.type = .STRING_CONST then
    let st ← eat .STRING_CONST st
    pure (.TypeNode token, st)
  else if st.cur.type = .CHAR then
    let st ← eat .CHAR st
    pure (.TypeNode token, st)
  else if st.cur.type = .ARRAY then
    let st ← eat .ARRAY st
    let st ← eat .LBRACK st
    let startLen := st.cur.value
    let st ← eat .INTEGER_CONST st
    let st ← eat .DOT st
    let st ← eat .DOT st
    let endLen := st.cur.value
    let st ← eat .INTEGER_CONST st
    let st ← eat .RBRACK st
    let st ← eat .OF st
    if st.cur.type = .INTEGER then
      let st ← eat .INTEGER st
      pure (.ArrayNode startLen endLen (.vStr "INTEGER"), st)
    else
      .error (.pyException "type_spec: UnboundLocalError on non-INTEGER element type")
  else
    pure (.TypeNode token, st)

/-- Extract the `Var` token from a `Param` node (used where Python's
`get_read_parameter` extends a token list with `Param` nodes; the
heterogeneous Python list is modelled by the params' var tokens). -/
def paramVarToken : AST → Token
  | .Param (.Var t) _ => t
  | _ => ⟨.EOF, .vNone⟩

mutual

/-- `Parser.program` production body (`PROGRAM variable SEMI block DOT`). -/
def parseProgramNode (f : Nat) (st : PSt) : Except Failure (AST × PSt) :=
match f with
| 0 => .error .outOfFuel
| g + 1 => do
  let st ← eat .PROGRAM st
  let (vt, st) ← parseVariable st
  let progName := vt.value
  let st ← eat .SEMI st
  let (blk, st) ← parseBlock g st
  let node := AST.Program progName blk
  let st ← eat .DOT st
  pure (node, st)

/-- `Parser.block`. -/
def parseBlock (f : Nat) (st : PSt) : Except Failure (AST × PSt) :=
match f with
| 0 => .error .outOfFuel
| g + 1 => do
  let (decls, st) ← parseDeclarations g st
  let (comp, st) ← parseCompound g st
  pure (AST.Block decls comp, st)

/-- `Parser.declarations`. -/
def parseDeclarations (f : Nat) (st : PSt) : Except Failure (List AST × PSt) :=
match f with
| 0 => .error .outOfFuel
| g + 1 => do
  let (decls, st) ←
    if st.cur.type = .VAR then do
      let st ← eat .VAR st
      parseVarDeclSection g [] st
    else pure ([], st)
  parseProcDeclSeq g decls st

/-- The `while self.current_token.type == TokenType.ID` loop inside
`declarations` (one `variable_declaration SEMI` per iteration). -/
def parseVarDeclSection (f : Nat) (acc : List AST) (st : PSt) :
    Except Failure (List AST × PSt) :=
match f with
| 0 => .error .outOfFuel
| g + 1 =>
  if st.cur.type = .ID then do
    let (vds, st) ← parseVariableDeclaration g st
    let st ← eat .SEMI st
    parseVarDeclSection g (acc ++ vds) st
  else pure (acc, st)

/-- The `while self.current_token.type == TokenType.PROCEDURE` loop inside
`declarations`. -/
def parseProcDeclSeq (f : Nat) (acc : List AST) (st : PSt) :
    Except Failure (List AST × PSt) :=
match f with
| 0 => .error .outOfFuel
| g + 1 =>
  if st.cur.type = .PROCEDURE then do
    let (pd, st) ← parseProcedureDeclaration g st
    parseProcDeclSeq g (acc ++ [pd]) st
  else pure (acc, st)

/-- `Parser.variable_declaration`: `ID (COMMA ID)* COLON type_spec`,
one `VarDecl` node per identifier. -/
def parseVariableDeclaration (f : Nat) (st : PSt) :
    Except Failure (List AST × PSt) :=
match f with
| 0 => .error .outOfFuel
| g + 1 => do
  let first := st.cur
  let st ← eat .ID st
  let (toks, st) ← parseVarIdLoop g [first] st
  let st ← eat .COLON st
  let (tyNode, st) ← parseTypeSpec st
  pure (toks.map (fun t => AST.VarDecl (.Var t) tyNode), st)

/-- The `(COMMA ID)*` comma loop shared by `variable_declaration`,
`formal_parameters` and `read_parameters`. -/
def parseVarIdLoop (f : Nat) (acc : List Token) (st : PSt) :
    Except Failure (List Token × PSt) :=
match f with
| 0 => .error .outOfFuel
| g + 1 =>
  if st.cur.type = .COMMA then do
    let st ← eat .COMMA st
    let tok := st.cur
    let st ← eat .ID st
    parseVarIdLoop g (acc ++ [tok]) st
  else pure (acc, st)

/-- `Parser.procedure_declaration`. -/
def parseProcedureDeclaration (f : Nat) (st : PSt) :
    Except Failure (AST × PSt) :=
match f with
| 0 => .error .outOfFuel
| g + 1 => do
  let st ← eat .PROCEDURE st
  let procName := st.cur.value
  let st ← eat .ID st
  let (params, st) ←
    if st.cur.type = .LPAREN then do
      let st ← eat .LPAREN st
      let (ps, st) ← parseFormalParameterList g st
      let st ← eat .RPAREN st
      pure (ps, st)
    else pure ([], st)
  let st ← eat .SEMI st
  let (blockNode, st) ← parseBlock g st
  let st ← eat .SEMI st
  pure (AST.ProcedureDecl procName params blockNode, st)

/-- `Parser.formal_parameters`. -/
def parseFormalParameters (f : Nat) (st : PSt) :
    Except Failure (List AST × PSt) :=
match f with
| 0 => .error .outOfFuel
| g + 1 => do
  let first := st.cur
  let st ← eat .ID st
  let (toks, st) ← parseVarIdLoop g [first] st
  let st ← eat .COLON st
  let (tyNode, st) ← parseTypeSpec st
  pure (toks.map (fun t => AST.Param (.Var t) tyNode), st)

/-- `Parser.formal_parameter_list`. -/
def parseFormalParameterList (f : Nat) (st : PSt) :
    Except Failure (List AST × PSt) :=
match f with
| 0 => .error .outOfFuel
| g + 1 =>
  if st.cur.type = .ID then do
    let (ps, st) ← parseFormalParameters g st
    parseFPLLoop g ps st
  else pure ([], st)

/-- The `while SEMI` loop inside `formal_parameter_list`. -/
def parseFPLLoop (f : Nat) (acc : List AST) (st : PSt) :
    Except Failure (List AST × PSt) :=
match f with
| 0 => .error .outOfFuel
| g + 1 =>
  if st.cur.type = .SEMI then do
    let st ← eat .SEMI st
    let (ps, st) ← parseFormalParameters g st
    parseFPLLoop g (acc ++ ps) st
  else pure (acc, st)

/-- `Parser.compound_statement`. -/
def parseCompound (f : Nat) (st : PSt) : Except Failure (AST × PSt) :=
match f with
| 0 => .error .outOfFuel
| g + 1 => do
  let st ← eat .BEGIN st
  let (nodes, st) ← parseStatementList g st
  let st ← eat .END st
  pure (AST.Compound nodes, st)

/-- `Parser.statement_list`. -/
def parseStatementList (f : Nat) (st : PSt) :
    Except Failure (List AST × PSt) :=
match f with
| 0 => .error .outOfFuel
| g + 1 => do
  let (node, st) ← parseStatement g st
  parseStmtListLoop g [node] st

/-- The `while SEMI` loop inside `statement_list`. -/
def parseStmtListLoop (f : Nat) (acc : List AST) (st : PSt) :
    Except Failure (List AST × PSt) :=
match f with
| 0 => .error .outOfFuel
| g + 1 =>
  if st.cur.type = .SEMI then do
    let st ← eat .SEMI st
    let (node, st) ← parseStatement g st
    parseStmtListLoop g (acc ++ [node]) st
  else pure (acc, st)

/-- `Parser.statement`.  Note the procedure-call test: the current token
must be an `ID` **and the lexer's current character** (the raw character
right after the identifier's lexeme) must be `(`. -/
def parseStatement (f : Nat) (st : PSt) : Except Failure (AST × PSt) :=
match f with
| 0 => .error .outOfFuel
| g + 1 =>
  if st.cur.type = .BEGIN then parseCompound g st
  else if st.cur.type = .ID ∧ st.rest.head? = some '(' then parseProccall g st
  else if st.cur.type = .ID then parseAssignment g st
  else if st.cur.type = .WRITELN ∨ st.cur.type = .WRITE ∨
      st.cur.type = .READ ∨ st.cur.type = .READLN then parseIoStatement g st
  else if st.cur.type = .IF then parseIf g st
  else if st.cur.type = .WHILE then parseWhile g st
  else pure (.NoOp, st)

/-- `Parser.while_statement`: `WHILE relation DO statement`
(`node.name` stores the raw `TokenType`). -/
def parseWhile (f : Nat) (st : PSt) : Except Failure (AST × PSt) :=
match f with
| 0 => .error .outOfFuel
| g + 1 => do
  let tokT := st.cur.type
  let st ← eat .WHILE st
  let (rel, st) ← parseRelation g st
  let st ← eat .DO st
  let (s, st) ← parseStatement g st
  pure (AST.WhileStatement tokT rel s, st)

/-- `Parser.if_statement`: `IF relation THEN statement (ELSE statement)?`. -/
def parseIf (f : Nat) (st : PSt) : Except Failure (AST × PSt) :=
match f with
| 0 => .error .outOfFuel
| g + 1 => do
  let tokT := st.cur.type
  let st ← eat .IF st
  let (rel, st) ← parseRelation g st
  let st ← eat .THEN st
  let (s, st) ← parseStatement g st
  if st.cur.type = .ELSE then do
    let st ← eat .ELSE st
    let (e, st) ← parseStatement g st
    pure (AST.IfStatement tokT rel s (some e), st)
  else
    pure (AST.IfStatement tokT rel s none, st)

/-- `Parser.proccall_statement`. -/
def parseProccall (f : Nat) (st : PSt) : Except Failure (AST × PSt) :=
match f with
| 0 => .error .outOfFuel
| g + 1 => do
  let token := st.cur
  let procName := st.cur.value
  let st ← eat .ID st
  let st ← eat .LPAREN st
  let (args0, st) ←
    if st.cur.type ≠ .RPAREN then do
      let (a, st) ← parseExpr g st
      pure ([a], st)
    else pure ([], st)
  let (args, st) ← parseCallArgsLoop g args0 st
  let st ← eat .RPAREN st
  pure (AST.ProcedureCall procName args token none, st)

/-- The `while COMMA` loop inside `proccall_statement`. -/
def parseCallArgsLoop (f : Nat) (acc : List AST) (st : PSt) :
    Except Failure (List AST × PSt) :=
match f with
| 0 => .error .outOfFuel
| g + 1 =>
  if st.cur.type = .COMMA then do
    let st ← eat .COMMA st
    let (a, st) ← parseExpr g st
    parseCallArgsLoop g (acc ++ [a]) st
  else pure (acc, st)

/-- `Parser.assignment_statement`, including the array-indexed form whose
bracketed index is parsed then discarded. -/
def parseAssignment (f : Nat) (st : PSt) : Except Failure (AST × PSt) :=
match f with
| 0 => .error .outOfFuel
| g + 1 => do
  let (ltok, st) ← parseVariable st
  let left := AST.Var ltok
  let token := st.cur
  if token.value = .vStr "[" then do
    let st ← eat .LBRACK st
    let st ← eat .INTEGER_CONST st
    let st ← eat .RBRACK st
    let st ← eat .ASSIGN st
    let (right, st) ← parseExpr g st
    pure (AST.Assign left token right, st)
  else do
    let st ← eat .ASSIGN st
    let (right, st) ← parseExpr g st
    pure (AST.Assign left token right, st)

/-- `Parser.relation_statement`: `expr OP expr` for one operator among
`= < > <= >= AND OR`; any other operator raises a plain Python
`Exception`. -/
def parseRelation (f : Nat) (st : PSt) : Except Failure (AST × PSt) :=
match f with
| 0 => .error .outOfFuel
| g + 1 => do
  let (left, st) ← parseExpr g st
  let token := st.cur
  let st ←
    if st.cur.type = .EQUAL then eat .EQUAL st
    else if st.cur.type = .LESS then eat .LESS st
    else if st.cur.type = .GREATER then eat .GREATER st
    else if st.cur.type = .LESSEQUAL then eat .LESSEQUAL st
    else if st.cur.type = .GREATEREQUAL then eat .GREATEREQUAL st
    else if st.cur.type = .AND then eat .AND st
    else if st.cur.type = .OR then eat .OR st
    else .error (.pyException "no match in relation_statement")
  let (right, st) ← parseExpr g st
  pure (AST.Relation left token right, st)

/-- `Parser.io_statement`.  For WRITE/WRITELN, `WRITE.__init__` reads
`tk.value` on `get_write_parameter`'s result; when that result is the
empty list (no string argument), Python raises `AttributeError`. -/
def parseIoStatement (f : Nat) (st : PSt) : Except Failure (AST × PSt) :=
match f with
| 0 => .error .outOfFuel
| g + 1 =>
  if st.cur.type = .READ then do
    let st ← eat .READ st
    let st ← eat .LPAREN st
    let (ps, st) ← parseGetReadParameter g st
    let node := AST.READ .READ ps
    let st ← eat .RPAREN st
    pure (node, st)
  else if st.cur.type = .READLN then do
    let st ← eat .READLN st
    let st ← eat .LPAREN st
    let (ps, st) ← parseGetReadParameter g st
    let node := AST.READ .READLN ps
    let st ← eat .RPAREN st
    pure (node, st)
  else if st.cur.type = .WRITE then do
    let st ← eat .WRITE st
    let st ← eat .LPAREN st
    let (p?, st) ← parseGetWriteParameter g st
    match p? with
    | none => .error (.pyAttributeError "WRITE: list object has no attribute value")
    | some v =>
      let node := AST.WRITE .WRITE v
      let st ← eat .RPAREN st
      pure (node, st)
  else if st.cur.type = .WRITELN then do
    let st ← eat .WRITELN st
    let st ← eat .LPAREN st
    let (p?, st) ← parseGetWriteParameter g st
    match p? with
    | none => .error (.pyAttributeError "WRITELN: list object has no attribute value")
    | some v =>
      let node := AST.WRITE .WRITELN v
      let st ← eat .RPAREN st
      pure (node, st)
  else .error (.pyException "no match in io_statement")

/-- `Parser.get_write_parameter`: no string argument returns the empty
list (modelled `none`); a `SEMI` after the string reaches an undefined
local (`param_nodes`) and raises `NameError` after one `formal_parameters`
call. -/
def parseGetWriteParameter (f : Nat) (st : PSt) :
    Except Failure (Option TokenValue × PSt) :=
match f with
| 0 => .error .outOfFuel
| g + 1 =>
  if st.cur.type = .STRING_CONST then do
    let v := st.cur.value
    let st ← eat .STRING_CONST st
    if st.cur.type = .SEMI then do
      let st ← eat .SEMI st
      let (_, _) ← parseFormalParameters g st
      .error (.pyException "get_write_parameter: NameError param_nodes")
    else pure (some v, st)
  else pure (none, st)

/-- `Parser.get_read_parameter` (with `read_parameters` inlined as the
shared ID/COMMA loop). -/
def parseGetReadParameter (f : Nat) (st : PSt) :
    Except Failure (List Token × PSt) :=
match f with
| 0 => .error .outOfFuel
| g + 1 =>
  if st.cur.type = .ID then do
    let first := st.cur
    let st ← eat .ID st
    let (toks, st) ← parseVarIdLoop g [first] st
    parseReadSemiLoop g toks st
  else pure ([], st)

/-- The `while SEMI` loop inside `get_read_parameter` (Python extends the
token list with `Param` nodes; modelled by their var tokens). -/
def parseReadSemiLoop (f : Nat) (acc : List Token) (st : PSt) :
    Except Failure (List Token × PSt) :=
match f with
| 0 => .error .outOfFuel
| g + 1 =>
  if st.cur.type = .SEMI then do
    let st ← eat .SEMI st
    let (ps, st) ← parseFormalParameters g st
    parseReadSemiLoop g (acc ++ ps.map paramVarToken) st
  else pure (acc, st)

/-- `Parser.expr`: `term ((PLUS|MINUS) term)*`. -/
def parseExpr (f : Nat) (st : PSt) : Except Failure (AST × PSt) :=
match f with
| 0 => .error .outOfFuel
| g + 1 => do
  let (node, st) ← parseTerm g st
  parseExprLoop g node st

/-- The `(PLUS|MINUS) term` loop (left-associative `BinOp` chain). -/
def parseExprLoop (f : Nat) (node : AST) (st : PSt) :
    Except Failure (AST × PSt) :=
match f with
| 0 => .error .outOfFuel
| g + 1 =>
  if st.cur.type = .PLUS ∨ st.cur.type = .MINUS then do
    let token := st.cur
    let st ← eat st.cur.type st
    let (rhs, st) ← parseTerm g st
    parseExprLoop g (AST.BinOp node token rhs) st
  else pure (node, st)

/-- `Parser.term`: `factor ((MUL|INTEGER_DIV|FLOAT_DIV) factor)*`. -/
def parseTerm (f : Nat) (st : PSt) : Except Failure (AST × PSt) :=
match f with
| 0 => .error .outOfFuel
| g + 1 => do
  let (node, st) ← parseFactor g st
  parseTermLoop g node st

/-- The `(MUL|INTEGER_DIV|FLOAT_DIV) factor` loop. -/
def parseTermLoop (f : Nat) (node : AST) (st : PSt) :
    Except Failure (AST × PSt) :=
match f with
| 0 => .error .outOfFuel
| g + 1 =>
  if st.cur.type = .MUL ∨ st.cur.type = .INTEGER_DIV ∨
      st.cur.type = .FLOAT_DIV then do
    let token := st.cur
    let st ← eat st.cur.type st
    let (rhs, st) ← parseFactor g st
    parseTermLoop g (AST.BinOp node token rhs) st
  else pure (node, st)

/-- `Parser.factor`: unary sign, numeric literal, parenthesised expr,
string literal, else `variable` (so any other token fails inside
`eat(ID)` with `UNEXPECTED_TOKEN`). -/
def parseFactor (f : Nat) (st : PSt) : Except Failure (AST × PSt) :=
match f with
| 0 => .error .outOfFuel
| g + 1 => do
  let token := st.cur
  if token.type = .PLUS then do
    let st ← eat .PLUS st
    let (e, st) ← parseFactor g st
    pure (AST.UnaryOp token e, st)
  else if token.type = .MINUS then do
    let st ← eat .MINUS st
    let (e, st) ← parseFactor g st
    pure (AST.UnaryOp token e, st)
  else if token.type = .INTEGER_CONST then do
    let st ← eat .INTEGER_CONST st
    pure (AST.Num token, st)
  else if token.type = .REAL_CONST then do
    let st ← eat .REAL_CONST st
    pure (AST.Num token, st)
  else if token.type = .LPAREN then do
    let st ← eat .LPAREN st
    let (node, st) ← parseExpr g st
    let st ← eat .RPAREN st
    pure (node, st)
  else if token.type = .STRING_CONST then do
    let st ← eat .STRING_CONST st
    pure (AST.Str token, st)
  else do
    let (t, st) ← parseVariable st
    pure (AST.Var t, st)

end

/-- `Parser.parse`: the `program` production, then trailing input is an
`UNEXPECTED_TOKEN` parse error. -/
def parseFromSt (f : Nat) (st : PSt) : Except Failure (AST × PSt) := do
  let (node, st) ← parseProgramNode f st
  if st.cur.type ≠ .EOF then .error (.parserError .UNEXPECTED_TOKEN st.cur)
  else pure (node, st)

/-- Build the parser (pulling the first lookahead token) and parse. -/
def parseSource (f : Nat) (src : String) : Except Failure AST := do
  let (t, r) ← nextTokenFrom src.toList
  let (node, _) ← parseFromSt f ⟨t, r⟩
  pure node

/-- `ScopedSymbolTable`: insertion-ordered dict from key to symbol, plus
scope name and nesting level.  The enclosing chain is represented by the
list of scopes in the analyzer state (head = current scope). -/
structure ScopedSymbolTable where
  symbols : List (PKey × PySymbol)
  scopeName : TokenValue
  scopeLevel : Nat

/-- Python dict update `d[k] = v` on an insertion-ordered assoc list. -/
def dictInsert (k : PKey) (v : PySymbol) :
    List (PKey × PySymbol) → List (PKey × PySymbol)
  | [] => [(k, v)]
  | (k', v') :: rest =>
    if k' = k then (k, v) :: rest else (k', v') :: dictInsert k v rest

/-- `ScopedSymbolTable.insert`: stores under `symbol.name` — no case
normalisation of any kind. -/
def ScopedSymbolTable.insert (tbl : ScopedSymbolTable) (sym : PySymbol) :
    ScopedSymbolTable :=
  { tbl with symbols := dictInsert sym.key sym tbl.symbols }

/-- `ScopedSymbolTable.lookup` with `current_scope_only=True`: exact-key
search of the local dict. -/
def lookupLocal (tbl : ScopedSymbolTable) (k : PKey) : Option PySymbol :=
  (tbl.symbols.find? (fun p => p.1 = k)).map Prod.snd

/-- `ScopedSymbolTable.lookup`: local dict first, then the enclosing
chain. -/
def lookupChain : List ScopedSymbolTable → PKey → Option PySymbol
  | [], _ => none
  | s :: rest, k =>
    match lookupLocal s k with
    | some v => some v
    | none => lookupChain rest k

/-- `_init_builtins`: the global scope is pre-seeded with the builtin type
symbols `INTEGER`, `REAL`, `STRING_CONST`, `ARRAY` (in insertion order). -/
def initBuiltins (tbl : ScopedSymbolTable) : ScopedSymbolTable :=
  ((((tbl.insert (.BuiltinTypeSymbol "INTEGER")).insert
      (.BuiltinTypeSymbol "REAL")).insert
      (.BuiltinTypeSymbol "STRING_CONST")).insert
      (.BuiltinTypeSymbol "ARRAY"))

/-- Side table entry for one `ProcedureSymbol` (its Python-mutable
`formal_params` and `block_ast` slots). -/
structure ProcInfo where
  formalParams : List PySymbol
  blockAst : Option AST

/-- Semantic analyzer state: the scope chain (head = `current_scope`),
the procedure-symbol side table, and the id supply. -/
structure ASt where
  scopes : List ScopedSymbolTable
  table : List (Nat × ProcInfo)
  nextId : Nat

/-- Failures of the semantic analysis phase: `SemanticError` proper (the
only kind `main` catches), or an uncaught Python-level error from the
reflective visitor (`generic_visit` raising for a node class without a
`visit_…` method, attribute errors on `None`). -/
inductive SemFail where
  | semanticError (code : ErrorCode) (tok : Token)
  | noVisitMethod (site : String)
  | pyError (site : String)
  | outOfFuel
deriving DecidableEq, Repr

/-- `self.current_scope.insert(symbol)` (an `AttributeError` if there is no
current scope, which cannot happen on the paths the program driver runs). -/
def insertCur (st : ASt) (sym : PySymbol) : Except SemFail ASt :=
  match st.scopes with
  | [] => .error (.pyError "insert with current_scope None")
  | s :: rest => .ok { st with scopes := s.insert sym :: rest }

/-- Side-table read. -/
def tableGet (t : List (Nat × ProcInfo)) (id : Nat) : Option ProcInfo :=
  (t.find? (fun p => p.1 = id)).map Prod.snd

/-- Side-table in-place update (models mutation of the aliased
`ProcedureSymbol` object). -/
def tableMod (t : List (Nat × ProcInfo)) (id : Nat)
    (fn : ProcInfo → ProcInfo) : List (Nat × ProcInfo) :=
  t.map (fun p => if p.1 = id then (p.1, fn p.2) else p)

/-- The `.value` attribute of a type-spec node (`Type.value` is the token's
value; `Array.value` is the element-type string). -/
def typeNodeValue : AST → TokenValue
  | .TypeNode tok => tok.value
  | .ArrayNode _ _ v => v
  | _ => .vNone

mutual

/-- `SemanticAnalyzer.visit` (reflective dispatch made explicit).  Returns
the annotated node — Python mutates `ProcedureCall.proc_symbol` in place;
everything else is returned unchanged.  Note which visitors recurse and
which do not: `visit_IfStatement`/`visit_WhileStatement` only insert an
`IF_Symbol` and never visit the relation or the branch statements;
`visit_UnaryOp` is `pass`; `visit_READ`/`visit_WRITE` insert the raw
`TokenType` and never check their argument identifiers. -/
def saVisit (f : Nat) (node : AST) (st : ASt) : Except SemFail (AST × ASt) :=
match f with
| 0 => .error .outOfFuel
| g + 1 =>
  match node with
  | .Program name blk => do
    let globalScope := initBuiltins ⟨[], .vStr "global", 1⟩
    let st := { st with scopes := globalScope :: st.scopes }
    let (blk', st) ← saVisit g blk st
    let st := { st with scopes := st.scopes.tail }
    pure (.Program name blk', st)
  | .Block decls comp => do
    let (decls', st) ← saVisitSeq g decls st
    let (comp', st) ← saVisit g comp st
    pure (.Block decls' comp', st)
  | .VarDecl varN tyN => do
    let tySym := lookupChain st.scopes (.ofVal (typeNodeValue tyN))
    match varN with
    | .Var vtok => do
      let varSym := PySymbol.VarSymbol vtok.value tySym
      let dup :=
        match st.scopes.head? with
        | some s => lookupLocal s (.ofVal vtok.value)
        | none => none
      if dup.isSome then
        .error (.semanticError .DUPLICATE_ID vtok)
      else do
        let st ← insertCur st varSym
        pure (.VarDecl varN tyN, st)
    | _ => .error (.pyError "VarDecl var_node shape")
  | .ProcedureDecl name params blk => do
    let id := st.nextId
    let st ← insertCur st (.ProcedureSymbol name id)
    let st := { st with table := st.table ++ [(id, ({ formalParams := [], blockAst := none } : ProcInfo))],
                        nextId := st.nextId + 1 }
    let lvl := (match st.scopes.head? with | some s => s.scopeLevel | none => 0)
    let st := { st with scopes := (⟨[], name, lvl + 1⟩ : ScopedSymbolTable) :: st.scopes }
    let st ← saParams g params id st
    let (blk', st) ← saVisit g blk st
    let st := { st with scopes := st.scopes.tail }
    let setBlk := fun (i : ProcInfo) => { i with blockAst := some blk' }
    let st := { st with table := tableMod st.table id setBlk }
    pure (.ProcedureDecl name params blk', st)
  | .Compound children => do
    let (cs, st) ← saVisitSeq g children st
    pure (.Compound cs, st)
  | .NoOp => pure (node, st)
  | .BinOp l op r => do
    let (l', st) ← saVisit g l st
    let (r', st) ← saVisit g r st
    pure (.BinOp l' op r', st)
  | .Assign l tok r => do
    let (r', st) ← saVisit g r st
    let (l', st) ← saVisit g l st
    pure (.Assign l' tok r', st)
  | .Var tok =>
    match lookupChain st.scopes (.ofVal tok.value) with
    | some _ => pure (node, st)
    | none => .error (.semanticError .ID_NOT_FOUND tok)
  | .Num _ => pure (node, st)
  | .Str _ => pure (node, st)
  | .UnaryOp _ _ => pure (node, st)
  | .ProcedureCall name args tok _ => do
    let (args', st) ← saVisitSeq g args st
    let procSym := lookupChain st.scopes (.ofVal name)
    pure (.ProcedureCall name args' tok procSym, st)
  | .IfStatement n _ _ _ => do
    let st ← insertCur st (.IF_Symbol n)
    pure (node, st)
  | .WhileStatement n _ _ => do
    let st ← insertCur st (.IF_Symbol n)
    pure (node, st)
  | .WRITE op _ => do
    let st ← insertCur st (.RawTokenType op)
    pure (node, st)
  | .READ op _ => do
    let st ← insertCur st (.RawTokenType op)
    pure (node, st)
  | .TypeNode _ => .error (.noVisitMethod "Type")
  | .ArrayNode _ _ _ => .error (.noVisitMethod "Array")
  | .Param _ _ => .error (.noVisitMethod "Param")
  | .Relation _ _ _ => .error (.noVisitMethod "Relation")

/-- Sequential visit of a node list (declaration lists, compound children,
actual-parameter lists). -/
def saVisitSeq (f : Nat) (nodes : List AST) (st : ASt) :
    Except SemFail (List AST × ASt) :=
match f with
| 0 => .error .outOfFuel
| g + 1 =>
  match nodes with
  | [] => pure ([], st)
  | n :: rest => do
    let (n', st) ← saVisit g n st
    let (rest', st) ← saVisitSeq g rest st
    pure (n' :: rest', st)

/-- The formal-parameter loop of `visit_ProcedureDecl`: resolve the
parameter's declared type, insert a fresh `VarSymbol` into the procedure
scope and append it to the procedure symbol's `formal_params`. -/
def saParams (f : Nat) (params : List AST) (id : Nat) (st : ASt) :
    Except SemFail ASt :=
match f with
| 0 => .error .outOfFuel
| g + 1 =>
  match params with
  | [] => pure st
  | p :: rest =>
    match p with
    | .Param (.Var vtok) tyN => do
      let pty := lookupChain st.scopes (.ofVal (typeNodeValue tyN))
      let vs := PySymbol.VarSymbol vtok.value pty
      let st ← insertCur st vs
      let addParam := fun (i : ProcInfo) => { i with formalParams := i.formalParams ++ [vs] }
      let st := { st with table := tableMod st.table id addParam }
      saParams g rest id st
    | _ => .error (.pyError "formal param shape")

end

/-- Run the Semantic Analyzer on a parse tree; on success return the
annotated tree and the procedure side table (the data the Interpreter
reads through `node.proc_symbol` / `proc_symbol.block_ast`). -/
def semanticAnalyze (f : Nat) (tree : AST) :
    Except SemFail (AST × List (Nat × ProcInfo)) :=
  (saVisit f tree ⟨[], [], 0⟩).map (fun r => (r.1, r.2.table))

/-- Runtime values: Python int, float (as exact `ℚ`), str, and the `None`
object (which flows in from absent-variable reads and statement visits). -/
inductive Value where
  | intV (n : Int)
  | realV (q : ℚ)
  | strV (s : String)
  | pyNone
deriving DecidableEq, Repr

/-- Token value as a runtime value (`Num.value`, `Str.value`, …). -/
def tokValToValue : TokenValue → Value
  | .vNone => .pyNone
  | .vInt n => .intV n
  | .vRat q => .realV q
  | .vStr s => .strV s

/-- Uncaught Python runtime exceptions during interpretation. -/
inductive RtErr where
  | typeError (site : String)
  | zeroDivisionError
  | attributeError (site : String)
  | indexError (site : String)
  | valueError (site : String)
  | overflowError (site : String)
  | noVisitMethod (site : String)
  | missingProcInfo
deriving DecidableEq, Repr

/-- `ARType`. -/
inductive ARType where
  | PROGRAM
  | PROCEDURE
deriving DecidableEq, Repr

/-- `ActivationRecord`: name, kind, nesting level and the `members` dict. -/
structure ActivationRecord where
  name : TokenValue
  artype : ARType
  nestingLevel : Nat
  members : List (TokenValue × Value)
deriving DecidableEq, Repr

/-- Python dict update on an activation record's `members`. -/
def memSet (k : TokenValue) (v : Value) :
    List (TokenValue × Value) → List (TokenValue × Value)
  | [] => [(k, v)]
  | (k', v') :: rest =>
    if k' = k then (k, v) :: rest else (k', v') :: memSet k v rest

/-- `ActivationRecord.get` (`dict.get`: `None` when absent is modelled by
`Option`; the caller `visit_Var` turns the miss into the `None` value). -/
def memGet (l : List (TokenValue × Value)) (k : TokenValue) : Option Value :=
  (l.find? (fun p => p.1 = k)).map Prod.snd

/-- Call-stack instrumentation events (observation ghost state: one `push`
per `CallStack.push`, one `pop` per `CallStack.pop`). -/
inductive StackEv where
  | push
  | pop
deriving DecidableEq, Repr

/-- The logging toggles that matter to the Interpreter (`--stack`). -/
structure Flags where
  stackLog : Bool
deriving DecidableEq, Repr

/-- All flags off: the CLI default. -/
def defaultFlags : Flags := ⟨false⟩

/-- Interpreter state.  `stack` is the `CallStack` (head = top, Python's
`records[-1]`); `output` collects the lines the interpreter prints
(`self.log` prints only when stack logging is on — message text is
abbreviated here, nothing below depends on it).  `arLog` (each popped
record) and `events` (push/pop trace) are observation-only ghost fields
with no counterpart in the source; no visited code reads them. -/
structure ISt where
  flags : Flags
  stack : List ActivationRecord
  output : List String
  arLog : List ActivationRecord
  events : List StackEv
deriving DecidableEq, Repr

/-- `self.log(msg)`: print only when `_SHOULD_LOG_STACK` is set. -/
def ilog (st : ISt) (msg : String) : ISt :=
  if st.flags.stackLog then { st with output := st.output ++ [msg] } else st

/-- Python `str * int`. -/
def strRepeat (s : String) (n : Int) : String :=
  String.join (List.replicate n.toNat s)

/-- Python `+` on the value domain. -/
def pyAdd : Value → Value → Except RtErr Value
  | .intV a, .intV b => .ok (.intV (a + b))
  | .intV a, .realV b => .ok (.realV ((a : ℚ) + b))
  | .realV a, .intV b => .ok (.realV (a + (b : ℚ)))
  | .realV a, .realV b => .ok (.realV (a + b))
  | .strV a, .strV b => .ok (.strV (a ++ b))
  | _, _ => .error (.typeError "+")

/-- Python `-` on the value domain. -/
def pySub : Value → Value → Except RtErr Value
  | .intV a, .intV b => .ok (.intV (a - b))
  | .intV a, .realV b => .ok (.realV ((a : ℚ) - b))
  | .realV a, .intV b => .ok (.realV (a - (b : ℚ)))
  | .realV a, .realV b => .ok (.realV (a - b))
  | _, _ => .error (.typeError "-")

/-- Python `*` on the value domain (including string repetition). -/
def pyMul : Value → Value → Except RtErr Value
  | .intV a, .intV b => .ok (.intV (a * b))
  | .intV a, .realV b => .ok (.realV ((a : ℚ) * b))
  | .realV a, .intV b => .ok (.realV (a * (b : ℚ)))
  | .realV a, .realV b => .ok (.realV (a * b))
  | .strV s, .intV n => .ok (.strV (strRepeat s n))
  | .intV n, .strV s => .ok (.strV (strRepeat s n))
  | _, _ => .error (.typeError "*")

/-- Python `//` (the `INTEGER_DIV` operator): floor division.  On two ints
the result is an int (`Int.fdiv` rounds toward negative infinity, exactly
like Python `//`); with a float operand the result is the floored quotient
as a float. -/
def pyFloorDiv : Value → Value → Except RtErr Value
  | .intV a, .intV b =>
    if b = 0 then .error .zeroDivisionError else .ok (.intV (Int.fdiv a b))
  | .intV a, .realV b =>
    if b = 0 then .error .zeroDivisionError
    else .ok (.realV ((⌊(a : ℚ) / b⌋ : Int) : ℚ))
  | .realV a, .intV b =>
    if b = 0 then .error .zeroDivisionError
    else .ok (.realV ((⌊a / (b : ℚ)⌋ : Int) : ℚ))
  | .realV a, .realV b =>
    if b = 0 then .error .zeroDivisionError
    else .ok (.realV ((⌊a / b⌋ : Int) : ℚ))
  | _, _ => .error (.typeError "//")

/-- `2^k` as an exact rational, for an integer exponent `k`. -/
def pow2 : Int → ℚ
  | .ofNat n => (2 : ℚ) ^ n
  | .negSucc n => 1 / (2 : ℚ) ^ (n + 1)

/-- Structural floor-log₂ (fuel `n` itself always suffices). -/
def log2fuel : Nat → Nat → Nat
  | 0, _ => 0
  | f + 1, n => if 2 ≤ n then log2fuel f (n / 2) + 1 else 0

/-- `⌊log₂ n⌋` for `n ≥ 1` (and `0` at `0`). -/
def intLog2 (n : Nat) : Nat := log2fuel n n

/-- Structural ceiling-log₂. -/
def clog2fuel : Nat → Nat → Nat
  | 0, _ => 0
  | f + 1, n => if 2 ≤ n then clog2fuel f ((n + 1) / 2) + 1 else 0

/-- `⌈log₂ n⌉` for `n ≥ 1` (and `0` at `0`). -/
def intClog2 (n : Nat) : Nat := clog2fuel n n

/-- Round a rational to the nearest integer multiple of `2^k`, ties to
even (the IEEE-754 default rounding at one fixed scale). -/
def roundScale (x : ℚ) (k : Int) : ℚ :=
  let n : ℚ := x / pow2 k
  let m : Int := ⌊n⌋
  let m2 : Int :=
    if n - m < 1 / 2 then m
    else if 1 / 2 < n - m then m + 1
    else if m % 2 = 0 then m else m + 1
  (m2 : ℚ) * pow2 k

/-- The binary exponent of a positive rational: the largest `e` with
`2^e ≤ a`. -/
def binExp (a : ℚ) : Int :=
  if 1 ≤ a then (intLog2 ⌊a⌋.toNat : Int) else -(intClog2 ⌈1 / a⌉.toNat : Int)

/-- Round an exact rational to the value of the nearest IEEE-754 double
(binary64: round-to-nearest, ties-to-even, 53-bit significand, gradual
underflow below `2^(-1022)` at the fixed subnormal scale `2^(-1074)`).
No magnitude cap is applied here — `pyFloat` checks the `2^1024` overflow
threshold where CPython raises `OverflowError`. -/
def dblRound (x : ℚ) : ℚ :=
  if x = 0 then 0
  else
    let a := |x|
    let k : Int := max (binExp a - 52) (-1074)
    let r := roundScale a k
    if x < 0 then -r else r

/-- Python `float(x)`.  An `int` is rounded to the nearest double, ties to
even, and CPython raises `OverflowError` when the rounded magnitude
reaches `2^1024`; a `float` passes through unchanged.  (For strings,
Python parses numeric literals; only all-digit strings are modelled since
no claim exercises the rest — any other string raises `ValueError` just as
modelled.) -/
def pyFloat : Value → Except RtErr ℚ
  | .intV n =>
    let r := dblRound (n : ℚ)
    if |r| < pow2 1024 then .ok r
    else .error (.overflowError "int too large to convert to float")
  | .realV q => .ok q
  | .strV s =>
    if s.length ≠ 0 ∧ s.toList.all Char.isDigit then
      .ok (dblRound (digitsToNat s.toList : ℚ))
    else .error (.valueError "float() on non-numeric str")
  | .pyNone => .error (.typeError "float(None)")

/-- `float(l) / float(r)` (the `FLOAT_DIV` operator): both operands go
through `float()`, a zero divisor raises `ZeroDivisionError`, and the
quotient is the correctly rounded double of the exact ratio.  (Overflow of
the quotient itself to `inf` is not modelled: it would need a divisor of
magnitude below `1`, which `float()` of a nonzero integer never yields.) -/
def pyFloatDiv (a b : Value) : Except RtErr Value := do
  let qa ← pyFloat a
  let qb ← pyFloat b
  if qb = 0 then .error .zeroDivisionError
  else .ok (.realV (dblRound (qa / qb)))

/-- The arithmetic dispatch of `Interpreter.visit_BinOp` on already
evaluated operands. -/
def applyBinOp (tt : TokenType) (a b : Value) : Except RtErr Value :=
  match tt with
  | .PLUS => pyAdd a b
  | .MINUS => pySub a b
  | .MUL => pyMul a b
  | .INTEGER_DIV => pyFloorDiv a b
  | .FLOAT_DIV => pyFloatDiv a b
  | _ => .ok .pyNone

/-- Python `==` on the value domain (never raises; cross-type is `False`,
int/float compare numerically). -/
def pyEqB : Value → Value → Bool
  | .intV a, .intV b => a = b
  | .intV a, .realV b => (a : ℚ) = b
  | .realV a, .intV b => a = (b : ℚ)
  | .realV a, .realV b => a = b
  | .strV a, .strV b => a = b
  | .pyNone, .pyNone => true
  | _, _ => false

/-- Python `<` (raises `TypeError` on unordered mixes, including `None`). -/
def pyLtB : Value → Value → Except RtErr Bool
  | .intV a, .intV b => .ok (a < b)
  | .intV a, .realV b => .ok ((a : ℚ) < b)
  | .realV a, .intV b => .ok (a < (b : ℚ))
  | .realV a, .realV b => .ok (a < b)
  | .strV a, .strV b => .ok (decide (a < b))
  | _, _ => .error (.typeError "<")

/-- Python `<=`. -/
def pyLeB : Value → Value → Except RtErr Bool
  | .intV a, .intV b => .ok (a ≤ b)
  | .intV a, .realV b => .ok ((a : ℚ) ≤ b)
  | .realV a, .intV b => .ok (a ≤ (b : ℚ))
  | .realV a, .realV b => .ok (a ≤ b)
  | .strV a, .strV b => .ok (decide (a < b) || decide (a = b))
  | _, _ => .error (.typeError "<=")

/-- Python `>`. -/
def pyGtB (a b : Value) : Except RtErr Bool :=
  match pyLeB a b with
  | .ok r => .ok (!r)
  | .error _ => .error (.typeError ">")

/-- Python `>=`. -/
def pyGeB (a b : Value) : Except RtErr Bool :=
  match pyLtB a b with
  | .ok r => .ok (!r)
  | .error _ => .error (.typeError ">=")

/-- The `.value` attribute of an AST node, as the raw token value
(`None` result means the node's class has no `value` attribute, i.e. the
Python access raises `AttributeError`). -/
def valueAttrTV : AST → Option TokenValue
  | .Num tok => some tok.value
  | .Str tok => some tok.value
  | .Var tok => some tok.value
  | .TypeNode tok => some tok.value
  | .ArrayNode _ _ v => some v
  | .WRITE _ v => some v
  | _ => none

/-- The `.value` attribute as a runtime value. -/
def valueAttr (a : AST) : Option Value :=
  (valueAttrTV a).map tokValToValue

/-- The attribute triple `(.left.value, .token.type, .right.value)` that
`visit_IfStatement`/`visit_WhileStatement` read off the branch/body
statement (only classes with `left`/`token`/`right` attributes qualify:
`Assign`, `Relation`, `BinOp`). -/
def stmtAttrs : AST → Option (Value × TokenType × Value)
  | .Assign l tok r => do
    let lv ← valueAttr l
    let rv ← valueAttr r
    some (lv, tok.type, rv)
  | .Relation l tok r => do
    let lv ← valueAttr l
    let rv ← valueAttr r
    some (lv, tok.type, rv)
  | .BinOp l tok r => do
    let lv ← valueAttr l
    let rv ← valueAttr r
    some (lv, tok.type, rv)
  | _ => none

/-- Interpreter-level failures: a Python runtime exception or fuel
exhaustion of the model. -/
inductive IErr where
  | rt (e : RtErr)
  | outOfFuel
deriving DecidableEq, Repr

/-- Lift an arithmetic result. -/
def liftRt {α : Type} : Except RtErr α → Except IErr α
  | .ok a => .ok a
  | .error e => .error (.rt e)

/-- `PySymbol.name` as a token value (formal parameters are always
`VarSymbol`s). -/
def PySymbol.nameTV : PySymbol → TokenValue
  | .VarSymbol n _ => n
  | .ProcedureSymbol n _ => n
  | .BuiltinTypeSymbol n => .vStr n
  | .IF_Symbol t => .vStr t.enumName
  | .RawTokenType t => .vStr t.enumName

/-- `CallStack.push` with the ghost `events` instrumentation. -/
def pushAR (ar : ActivationRecord) (st : ISt) : ISt :=
  { st with stack := ar :: st.stack, events := st.events ++ [StackEv.push] }

/-- `CallStack.pop` (Python list `pop`: `IndexError` on an empty stack)
with the ghost `arLog`/`events` instrumentation; the surrounding visitor
returns `None`. -/
def popAR (st : ISt) : Except IErr (Value × ISt) :=
  match st.stack with
  | [] => .error (.rt (.indexError "pop from empty list"))
  | a :: rest =>
    .ok (.pyNone, { st with stack := rest, arLog := st.arLog ++ [a],
                            events := st.events ++ [StackEv.pop] })

/-- The logging performed when an IF branch is selected: read the branch
statement's attributes (may raise `AttributeError`) and log.  Shared by
`visit_IfStatement` (then/else) and `visit_WhileStatement` (body). -/
def branchLog (s : AST) (tag : String) (st : ISt) : Except IErr (Value × ISt) :=
  match stmtAttrs s with
  | some _ => .ok (.pyNone, ilog st tag)
  | none => .error (.rt (.attributeError "branch statement attrs"))

/-- The else-part access `node.elseStatement.left.value`: with no ELSE the
slot is `None` and the access raises `AttributeError`. -/
def elseLog (e? : Option AST) (st : ISt) : Except IErr (Value × ISt) :=
  match e? with
  | none => .error (.rt (.attributeError "NoneType elseStatement"))
  | some e => branchLog e "IF Statement Result (else)" st

mutual

/-- `Interpreter.visit` (reflective dispatch made explicit), with the
procedure side table `tbl` standing for the aliased `ProcedureSymbol`
objects.  Statement visitors return Python `None`. -/
def iVisit (tbl : List (Nat × ProcInfo)) (f : Nat) (node : AST) (st : ISt) :
    Except IErr (Value × ISt) :=
match f with
| 0 => .error .outOfFuel
| g + 1 =>
  match node with
  | .Program name blk => do
    let ar : ActivationRecord := ⟨name, .PROGRAM, 1, []⟩
    let st := ilog st "ENTER: PROGRAM"
    let st := pushAR ar st
    let st := ilog st "CALL STACK"
    let (_, st) ← iVisit tbl g blk st
    let st := ilog st "LEAVE: PROGRAM"
    let st := ilog st "CALL STACK"
    popAR st
  | .Block decls comp => do
    let st ← iVisitSeq tbl g decls st
    let (_, st) ← iVisit tbl g comp st
    pure (.pyNone, st)
  | .VarDecl _ _ => pure (.pyNone, st)
  | .TypeNode _ => pure (.pyNone, st)
  | .Str tok => pure (tokValToValue tok.value, st)
  | .WRITE op _ =>
    if op = .WRITELN then pure (.pyNone, ilog st "WRITELN -> param newline")
    else pure (.pyNone, ilog st "WRITE -> param")
  | .READ op _ =>
    if op = .READLN then pure (.pyNone, ilog st "READLN -> param newline")
    else pure (.pyNone, ilog st "READ -> param")
  | .BinOp l op r =>
    -- each known operator evaluates left then right and dispatches; an
    -- unknown operator evaluates nothing and returns None (the method
    -- falls through all its elif branches)
    if op.type = .PLUS ∨ op.type = .MINUS ∨ op.type = .MUL ∨
        op.type = .INTEGER_DIV ∨ op.type = .FLOAT_DIV then do
      let (a, st) ← iVisit tbl g l st
      let (b, st) ← iVisit tbl g r st
      let v ← liftRt (applyBinOp op.type a b)
      pure (v, st)
    else pure (.pyNone, st)
  | .Num tok => pure (tokValToValue tok.value, st)
  | .UnaryOp op e =>
    if op.type = .PLUS then do
      let (v, st) ← iVisit tbl g e st
      match v with
      | .intV n => pure (.intV n, st)
      | .realV q => pure (.realV q, st)
      | _ => .error (.rt (.typeError "unary +"))
    else if op.type = .MINUS then do
      let (v, st) ← iVisit tbl g e st
      match v with
      | .intV n => pure (.intV (-n), st)
      | .realV q => pure (.realV (-q), st)
      | _ => .error (.rt (.typeError "unary -"))
    else pure (.pyNone, st)
  | .Compound children => do
    let st ← iVisitSeq tbl g children st
    pure (.pyNone, st)
  | .Assign l _ r => do
    let key ←
      match valueAttrTV l with
      | some tv => pure tv
      | none => .error (.rt (.attributeError "Assign left.value"))
    let (v, st) ← iVisit tbl g r st
    match st.stack with
    | [] => .error (.rt (.indexError "records[-1] of empty list"))
    | ar :: rest =>
      pure (.pyNone,
        { st with stack := { ar with members := memSet key v ar.members } :: rest })
  | .Var tok =>
    match st.stack with
    | [] => .error (.rt (.indexError "records[-1] of empty list"))
    | ar :: _ => pure ((memGet ar.members tok.value).getD .pyNone, st)
  | .NoOp => pure (.pyNone, st)
  | .ProcedureDecl _ _ _ => pure (.pyNone, st)
  | .ProcedureCall name args _ annot =>
    match annot with
    | none => .error (.rt (.attributeError "NoneType has no formal_params"))
    | some (.ProcedureSymbol _ id) =>
      match tableGet tbl id with
      | none => .error (.rt .missingProcInfo)
      | some info => do
        let pairs := info.formalParams.zip args
        let (members, st) ← iBindArgs tbl g pairs [] st
        let ar : ActivationRecord := ⟨name, .PROCEDURE, 2, members⟩
        let st := pushAR ar st
        let st := ilog st "ENTER: PROCEDURE"
        let st := ilog st "CALL STACK"
        match info.blockAst with
        | none => .error (.rt (.noVisitMethod "NoneType"))
        | some blk => do
          let (_, st) ← iVisit tbl g blk st
          let st := ilog st "LEAVE: PROCEDURE"
          let st := ilog st "CALL STACK"
          popAR st
    | some _ => .error (.rt (.attributeError "object has no formal_params"))
  | .IfStatement _ rel thenS elseS =>
    match rel with
    | .Relation lft tokR rgt => do
      let (leftVal, st) ← iVisit tbl g lft st
      let rightV ←
        match valueAttr rgt with
        | some v => pure v
        | none => .error (.rt (.attributeError "expr.right.value"))
      match tokR.type with
      | .EQUAL =>
        if pyEqB leftVal rightV then branchLog thenS "IF Statement Result" st
        else elseLog elseS st
      | .LESS => do
        let b ← liftRt (pyLtB leftVal rightV)
        if b then branchLog thenS "IF Statement Result" st
        else elseLog elseS st
      | .LESSEQUAL => do
        let b ← liftRt (pyLeB leftVal rightV)
        if b then branchLog thenS "IF Statement Result" st
        else elseLog elseS st
      | .GREATER => do
        let b ← liftRt (pyGtB leftVal rightV)
        if b then branchLog thenS "IF Statement Result" st
        else elseLog elseS st
      | .GREATEREQUAL => do
        let b ← liftRt (pyGeB leftVal rightV)
        if b then branchLog thenS "IF Statement Result" st
        else elseLog elseS st
      | _ => pure (.pyNone, st)
    | _ => .error (.rt (.attributeError "IfStatement expr shape"))
  | .WhileStatement _ rel body =>
    match rel with
    | .Relation lft tokR rgt => do
      let (leftVal, st) ← iVisit tbl g lft st
      let rightV ←
        match valueAttr rgt with
        | some v => pure v
        | none => .error (.rt (.attributeError "expr.right.value"))
      match tokR.type with
      | .EQUAL =>
        if pyEqB leftVal rightV then branchLog body "While Statement Result" st
        else pure (.pyNone, st)
      | .GREATER => do
        let b ← liftRt (pyGtB leftVal rightV)
        if b then branchLog body "While Statement Result" st
        else pure (.pyNone, st)
      | .GREATEREQUAL => do
        let b ← liftRt (pyGeB leftVal rightV)
        if b then branchLog body "While Statement Result" st
        else pure (.pyNone, st)
      | .LESS => do
        let b ← liftRt (pyLtB leftVal rightV)
        if b then branchLog body "While Statement Result" st
        else pure (.pyNone, st)
      | .LESSEQUAL => do
        let b ← liftRt (pyLeB leftVal rightV)
        if b then branchLog body "While Statement Result" st
        else pure (.pyNone, st)
      | _ => pure (.pyNone, st)
    | _ => .error (.rt (.attributeError "WhileStatement expr shape"))
  | .Relation _ _ _ => .error (.rt (.noVisitMethod "Relation"))
  | .ArrayNode _ _ _ => .error (.rt (.noVisitMethod "Array"))
  | .Param _ _ => .error (.rt (.noVisitMethod "Param"))

/-- Sequential visiting with discarded results (`visit_Block` declaration
loop, `visit_Compound` children loop). -/
def iVisitSeq (tbl : List (Nat × ProcInfo)) (f : Nat) (nodes : List AST)
    (st : ISt) : Except IErr ISt :=
match f with
| 0 => .error .outOfFuel
| g + 1 =>
  match nodes with
  | [] => pure st
  | n :: rest => do
    let (_, st) ← iVisit tbl g n st
    iVisitSeq tbl g rest st

/-- The formal/actual binding loop of `visit_ProcedureCall`: each actual is
evaluated in the caller's state, bound under the formal's name (`zip`
truncates at the shorter list, unchecked arity). -/
def iBindArgs (tbl : List (Nat × ProcInfo)) (f : Nat)
    (pairs : List (PySymbol × AST)) (acc : List (TokenValue × Value))
    (st : ISt) : Except IErr (List (TokenValue × Value) × ISt) :=
match f with
| 0 => .error .outOfFuel
| g + 1 =>
  match pairs with
  | [] => pure (acc, st)
  | (sym, argN) :: rest => do
    let (v, st) ← iVisit tbl g argN st
    iBindArgs tbl g rest (memSet sym.nameTV v acc) st

end

/-- Pipeline result, mirroring `main`: front-end failure (LexerError /
ParserError / an uncaught front-end crash), semantic failure, runtime
failure, or completed interpretation. -/
inductive PipeRes where
  | frontErr (e : Failure)
  | semErr (e : SemFail)
  | runErr (e : RtErr)
  | done (st : ISt)
  | outOfFuel
deriving DecidableEq, Repr

/-- `main` (minus file/CLI handling): lex+parse, analyze, interpret. -/
def runPipeline (flags : Flags) (f : Nat) (src : String) : PipeRes :=
  match parseSource f src with
  | .error e => .frontErr e
  | .ok tree =>
    match semanticAnalyze f tree with
    | .error e => .semErr e
    | .ok (tree', tbl) =>
      match iVisit tbl f tree' ⟨flags, [], [], [], []⟩ with
      | .ok (_, st) => .done st
      | .error (.rt e) => .runErr e
      | .error .outOfFuel => .outOfFuel

/-- Lines printed to standard output during a completed run. -/
def pipeOutput : PipeRes → Option (List String)
  | .done st => some st.output
  | _ => none

/-- Did the run reach interpretation at all (i.e. pass parsing and
semantic analysis)? -/
def pipeReachedInterp : PipeRes → Bool
  | .done _ => true
  | .runErr _ => true
  | _ => false

/-- Did the whole run complete without any error? -/
def pipeCompleted : PipeRes → Bool
  | .done _ => true
  | _ => false

/-- The `SemanticError` code of a run stopped by semantic analysis. -/
def pipeSemErrCode : PipeRes → Option ErrorCode
  | .semErr (.semanticError c _) => some c
  | _ => none

/-- Look up variable `k` in the popped activation record named `arName`
(observation through the `arLog` ghost). -/
def arLogGet (r : PipeRes) (arName k : TokenValue) : Option Value :=
  match r with
  | .done st =>
    match st.arLog.find? (fun a => a.name = arName) with
    | some ar => memGet ar.members k
    | none => none
  | _ => none

/-- The final call stack of a completed run. -/
def pipeFinalStack : PipeRes → Option (List ActivationRecord)
  | .done st => some st.stack
  | _ => none

/-! ### Concrete programs exercised by the claims -/

/-- A single-quote character as a string (for building Pascal sources that
contain string literals). -/
def quoteS : String := ⟨[Char.ofNat 39]⟩

/-- The spec's end-to-end scenario source. -/
def srcC3 : String :=
  "PROGRAM p; VAR x: INTEGER; BEGIN x := 2 + 3 * 4; WRITELN(" ++ quoteS ++
    "done" ++ quoteS ++ ") END."

/-- A WHILE whose relation holds initially: the body would set `x := 5`. -/
def srcC1w : String :=
  "PROGRAM p; VAR x: INTEGER; BEGIN x := 0; WHILE x < 1 DO x := 5 END."

/-- An IF whose relation holds: the THEN branch would set `x := 7`. -/
def srcC1i : String :=
  "PROGRAM p; VAR x: INTEGER; BEGIN x := 0; IF x = 0 THEN x := 7 ELSE x := 9 END."

/-- Undeclared `y` and `x` referenced only inside an IF statement. -/
def srcC2 : String := "PROGRAM p; BEGIN IF y = 1 THEN x := 1 ELSE x := 2 END."

/-- Undeclared `y` referenced in a plain assignment. -/
def srcC2b : String := "PROGRAM p; BEGIN y := 1 END."

/-- Declares `x` lowercase, references it as uppercase `X`. -/
def srcC7 : String := "PROGRAM p; VAR x: INTEGER; BEGIN X := 1 END."

/-- A procedure body reading the program-level variable `x` (absent from the
procedure's own activation record at run time). -/
def srcC8 : String :=
  "PROGRAM p; VAR x, y: INTEGER; PROCEDURE q; BEGIN y := x END; BEGIN q() END."

/-- A well-formed procedure call (for the call-stack claim). -/
def srcC9 : String :=
  "PROGRAM p; PROCEDURE q(a: INTEGER); BEGIN a := 1 END; BEGIN q(5) END."

/-- Procedure call written with a space before the parenthesis. -/
def srcC10bad : String := "PROGRAM p; BEGIN foo (1) END."

/-- The same call with the parenthesis adjacent to the identifier. -/
def srcC10ok : String := "PROGRAM p; BEGIN foo(1) END."

/-- Does the parsed program's first statement come out as a `ProcedureCall`
named `foo`? -/
def parsedFirstStmtIsCall (src : String) : Bool :=
  match parseSource 300 src with
  | .ok (.Program _ (.Block _ (.Compound (.ProcedureCall (.vStr "foo") _ _ _ :: _)))) => true
  | _ => false

/-- A concrete interpreter state whose top frame lacks `y`. -/
def st8w : ISt := ⟨defaultFlags, [⟨.vStr "q", .PROCEDURE, 2, []⟩], [], [], []⟩

/-- A concrete state for the C1 witness: one frame, no members. -/
def st1w : ISt := ⟨defaultFlags, [⟨.vStr "p", .PROGRAM, 1, []⟩], [], [], []⟩

/-- Net stack-depth change of an event sequence (pushes minus pops). -/
def evNet (es : List StackEv) : Int :=
  (es.count .push : Int) - (es.count .pop : Int)

/-- Every prefix of the sequence has nonnegative net depth (no pop ever
precedes its matching push). -/
def prefNonneg (es : List StackEv) : Prop :=
  ∀ p s, es = p ++ s → 0 ≤ evNet p

/-- A balanced event sequence: zero net depth and nonnegative prefixes —
i.e. at every moment the call-stack depth equals the number of
not-yet-returned invocations opened inside the sequence. -/
def evBalanced (es : List StackEv) : Prop := evNet es = 0 ∧ prefNonneg es

/-- The call-stack invariant between two interpreter states: the stack
depth is restored, and the events emitted in between form a balanced
push/pop sequence (depth never drops below the entry depth and returns to
it). -/
def StInv (a b : ISt) : Prop :=
  b.stack.length = a.stack.length ∧
  ∃ es, b.events = a.events ++ es ∧ evBalanced es

/-- The push/pop event trace of a completed run. -/
def pipeEvents : PipeRes → Option (List StackEv)
  | .done st => some st.events
  | _ => none

/-- The empty initial interpreter state. -/
def ist0 : ISt := ⟨defaultFlags, [], [], [], []⟩

/-- Parse and analyze `srcC9`; `none` only if a phase fails (it does not). -/
def ann9 : Option (AST × List (Nat × ProcInfo)) :=
  match parseSource 300 srcC9 with
  | .ok t =>
    match semanticAnalyze 300 t with
    | .ok r => some r
    | .error _ => none
  | .error _ => none

/-- The annotated AST of `srcC9`. -/
def ast9 : AST := (ann9.getD (.NoOp, [])).1

/-- The procedure table of `srcC9`. -/
def tbl9 : List (Nat × ProcInfo) := (ann9.getD (.NoOp, [])).2

/-- The interpreter run of `srcC9` from the empty state. -/
def run9 : Except IErr (Value × ISt) := iVisit tbl9 300 ast9 ist0

/-- Whether `run9` succeeded. -/
def run9ok : Bool := match run9 with | .ok _ => true | .error _ => false

/-! ### Small structural lemmas about the interpreter state -/

/-- `ilog` touches only `output`. -/
@[simp] theorem ilog_stack (st : ISt) (m : String) : (ilog st m).stack = st.stack := by
  unfold ilog; split <;> rfl

/-- `ilog` preserves the popped-record log. -/
@[simp] theorem ilog_arLog (st : ISt) (m : String) : (ilog st m).arLog = st.arLog := by
  unfold ilog; split <;> rfl

/-- `ilog` preserves the push/pop event trace. -/
@[simp] theorem ilog_events (st : ISt) (m : String) : (ilog st m).events = st.events := by
  unfold ilog; split <;> rfl

/-- `ilog` preserves the flags. -/
@[simp] theorem ilog_flags (st : ISt) (m : String) : (ilog st m).flags = st.flags := by
  unfold ilog; split <;> rfl

/-- C3 (claim part refuted): the end-to-end scenario run emits **no**
output line at all under the default flags — `visit_WRITE` only calls the
stack-trace logger, so no `done` line (nor any line) reaches standard
output, contradicting "emits exactly one output line `done`". -/
theorem C3_counterexample :
    pipeOutput (runPipeline defaultFlags 300 srcC3) = some ([] : List String) ∧
    some ([] : List String) ≠ some ["done"] := by
  exact ⟨by decide, by decide⟩

/-- C3 (amended): the scenario source parses, passes semantic analysis and
completes interpretation; the program's activation record maps `x` to `14`
(multiplication binds tighter than addition); but the `WRITELN` emits
nothing — with stack logging off (the default) the run's output is empty.
(`pipeCompleted = true` entails that lexing, parsing and semantic analysis
all succeeded.) -/
theorem C3_pipeline_result :
    pipeCompleted (runPipeline defaultFlags 300 srcC3) = true ∧
    arLogGet (runPipeline defaultFlags 300 srcC3) (.vStr "p") (.vStr "x")
      = some (.intV 14) ∧
    pipeOutput (runPipeline defaultFlags 300 srcC3) = some ([] : List String) := by
  exact ⟨by decide, by decide, by decide⟩

/-- C4 (claim part refuted): `DIV` is Python `//`, i.e. *floor* division,
not truncation toward zero: `-7 DIV 2` evaluates to `-4`, while the
toward-zero quotient is `-3` (shown both on the arithmetic dispatch and on
a full `visit_BinOp`/`visit_UnaryOp` evaluation of `(-7) DIV 2`). -/
theorem C4_counterexample :
    applyBinOp .INTEGER_DIV (.intV (-7)) (.intV 2) = .ok (.intV (-4)) ∧
    Int.tdiv (-7) 2 = -3 ∧ ((-4 : Int) ≠ -3) ∧
    iVisit [] 5
      (.BinOp (.UnaryOp ⟨.MINUS, .vStr "-"⟩ (.Num ⟨.INTEGER_CONST, .vInt 7⟩))
        ⟨.INTEGER_DIV, .vStr "DIV"⟩ (.Num ⟨.INTEGER_CONST, .vInt 2⟩))
      ⟨defaultFlags, [], [], [], []⟩
      = .ok (.intV (-4), ⟨defaultFlags, [], [], [], []⟩) := by
  exact ⟨rfl, by decide, by decide, rfl⟩

/-- `pow2` is the integer power of `2`. -/
theorem pow2_eq_zpow (k : Int) : pow2 k = (2 : ℚ) ^ k := by
  cases k with
  | ofNat n => simp [pow2]
  | negSucc n => simp [pow2, zpow_negSucc, one_div]

/-- `pow2` is positive. -/
theorem pow2_pos (k : Int) : 0 < pow2 k := by
  rw [pow2_eq_zpow]
  exact zpow_pos (by norm_num) k

/-- `pow2` reflects `≤` on exponents. -/
theorem pow2_le_pow2 {j k : Int} (h : pow2 j ≤ pow2 k) : j ≤ k := by
  rw [pow2_eq_zpow, pow2_eq_zpow] at h
  exact (zpow_le_zpow_iff_right₀ (by norm_num : (1 : ℚ) < 2)).mp h

/-- The structural floor-log underapproximates: `2 ^ log₂ n ≤ n`. -/
theorem pow_log2fuel_le : ∀ f n, 1 ≤ n → n ≤ f → 2 ^ log2fuel f n ≤ n := by
  intro f
  induction f with
  | zero => intro n h1 h2; omega
  | succ g ih =>
    intro n h1 h2
    by_cases h2n : 2 ≤ n
    · have hrec := ih (n / 2) (by omega) (by omega)
      simp only [log2fuel, if_pos h2n]
      rw [pow_succ]
      omega
    · simp only [log2fuel, if_neg h2n, pow_zero]
      omega

/-- The structural ceiling-log overapproximates: `n ≤ 2 ^ clog₂ n`. -/
theorem le_pow_clog2fuel : ∀ f n, n ≤ f → n ≤ 2 ^ clog2fuel f n := by
  intro f
  induction f with
  | zero => intro n h; simp only [clog2fuel, pow_zero]; omega
  | succ g ih =>
    intro n h
    by_cases h2n : 2 ≤ n
    · have hrec := ih ((n + 1) / 2) (by omega)
      simp only [clog2fuel, if_pos h2n]
      rw [pow_succ]
      omega
    · simp only [clog2fuel, if_neg h2n, pow_zero]
      omega

/-- `binExp` is a lower witness: `2 ^ binExp a ≤ a` for positive `a`. -/
theorem pow2_binExp_le {a : ℚ} (ha : 0 < a) : pow2 (binExp a) ≤ a := by
  unfold binExp
  split
  · next h1 =>
    have hfl : (1 : ℤ) ≤ ⌊a⌋ := Int.le_floor.mpr (by exact_mod_cast h1)
    have hn1 : 1 ≤ ⌊a⌋.toNat := by omega
    have hlog := pow_log2fuel_le ⌊a⌋.toNat ⌊a⌋.toNat hn1 (le_refl _)
    have hcast : ((2 : ℚ)) ^ intLog2 ⌊a⌋.toNat ≤ ((⌊a⌋.toNat : ℕ) : ℚ) := by
      exact_mod_cast hlog
    have hfloorle : ((⌊a⌋.toNat : ℕ) : ℚ) ≤ a := by
      have h0 : ((⌊a⌋.toNat : ℤ) : ℚ) = ((⌊a⌋ : ℤ) : ℚ) := by
        rw [Int.toNat_of_nonneg (by omega)]
      push_cast at h0
      rw [h0]
      exact Int.floor_le a
    calc pow2 ((intLog2 ⌊a⌋.toNat : ℕ) : Int)
        = (2 : ℚ) ^ intLog2 ⌊a⌋.toNat := by rw [pow2_eq_zpow, zpow_natCast]
      _ ≤ ((⌊a⌋.toNat : ℕ) : ℚ) := hcast
      _ ≤ a := hfloorle
  · next h1 =>
    push_neg at h1
    have hinv1 : (1 : ℚ) < 1 / a := by
      rw [lt_div_iff ha, one_mul]
      exact h1
    have hceil1 : (1 : ℤ) ≤ ⌈1 / a⌉ := by
      have := Int.le_ceil (1 / a)
      have h2 : (1 : ℚ) < (⌈1 / a⌉ : ℚ) := lt_of_lt_of_le hinv1 this
      exact_mod_cast le_of_lt h2
    have hclog := le_pow_clog2fuel ⌈1 / a⌉.toNat ⌈1 / a⌉.toNat (le_refl _)
    have h1a : 1 / a ≤ (2 : ℚ) ^ intClog2 ⌈1 / a⌉.toNat := by
      calc 1 / a ≤ ((⌈1 / a⌉ : ℤ) : ℚ) := Int.le_ceil (1 / a)
        _ = ((⌈1 / a⌉.toNat : ℤ) : ℚ) := by rw [Int.toNat_of_nonneg (by omega)]
        _ ≤ (2 : ℚ) ^ intClog2 ⌈1 / a⌉.toNat := by exact_mod_cast hclog
    have hp : (0 : ℚ) < (2 : ℚ) ^ intClog2 ⌈1 / a⌉.toNat := by positivity
    have := (one_div_le ha hp).mp h1a
    calc pow2 (-((intClog2 ⌈1 / a⌉.toNat : ℕ) : Int))
        = ((2 : ℚ) ^ intClog2 ⌈1 / a⌉.toNat)⁻¹ := by
          rw [pow2_eq_zpow, zpow_neg, zpow_natCast]
      _ = 1 / (2 : ℚ) ^ intClog2 ⌈1 / a⌉.toNat := inv_eq_one_div _
      _ ≤ a := this

/-- Rounding at scale `k` leaves an exact multiple of `2^k` unchanged. -/
theorem roundScale_exact (x : ℚ) (k : Int)
    (h : ∃ m : Int, x = (m : ℚ) * pow2 k) : roundScale x k = x := by
  obtain ⟨m, rfl⟩ := h
  have hp : pow2 k ≠ 0 := ne_of_gt (pow2_pos k)
  simp only [roundScale]
  rw [mul_div_assoc, div_self hp, mul_one, Int.floor_intCast]
  norm_num

/-- `dblRound` is the identity on dyadic rationals `m / 2^s` whose
numerator fits in 53 bits (every such value is an IEEE double). -/
theorem dblRound_dyadic (m : Int) (s : Nat) (hm : m ≠ 0)
    (hm53 : |m| ≤ 2 ^ 53) (hs : s ≤ 1000) :
    dblRound ((m : ℚ) / 2 ^ s) = (m : ℚ) / 2 ^ s := by
  have h2s : (0 : ℚ) < 2 ^ s := by positivity
  have hx0 : (m : ℚ) / 2 ^ s ≠ 0 :=
    div_ne_zero (Int.cast_ne_zero.mpr hm) (ne_of_gt h2s)
  have habs : |(m : ℚ) / 2 ^ s| = ((|m| : ℤ) : ℚ) / 2 ^ s := by
    rw [abs_div, abs_of_pos h2s, Int.cast_abs]
  have hapos : (0 : ℚ) < ((|m| : ℤ) : ℚ) / 2 ^ s := by
    apply div_pos _ h2s
    exact_mod_cast abs_pos.mpr hm
  have h253 : pow2 ((53 : Int) - (s : Int)) = (2 : ℚ) ^ (53 : ℕ) / (2 : ℚ) ^ s := by
    rw [pow2_eq_zpow, zpow_sub₀ (by norm_num : (2 : ℚ) ≠ 0)]
    norm_cast
  have hup : ((|m| : ℤ) : ℚ) / 2 ^ s ≤ pow2 ((53 : Int) - (s : Int)) := by
    rw [h253]
    apply (div_le_div_right h2s).mpr
    exact_mod_cast hm53
  have he_le : binExp (((|m| : ℤ) : ℚ) / 2 ^ s) ≤ (53 : Int) - (s : Int) :=
    pow2_le_pow2 (le_trans (pow2_binExp_le hapos) hup)
  have hrep : ∃ mm : Int, ((|m| : ℤ) : ℚ) / 2 ^ s
      = (mm : ℚ) * pow2 (max (binExp (((|m| : ℤ) : ℚ) / 2 ^ s) - 52) (-1074)) := by
    set e := binExp (((|m| : ℤ) : ℚ) / 2 ^ s) with hedef
    set k := max (e - 52) (-1074) with hkdef
    have hkmul : ∀ mm : Int, (mm : ℚ) * pow2 k = (mm : ℚ) * (2 : ℚ) ^ k := by
      intro mm; rw [pow2_eq_zpow]
    rcases le_or_lt e (52 - (s : Int)) with hcase | hcase
    · have hk : k ≤ -(s : Int) := max_le (by omega) (by omega)
      refine ⟨|m| * 2 ^ ((-(s : Int) - k).toNat), ?_⟩
      have ht : (((-(s : Int) - k).toNat : ℕ) : Int) = -(s : Int) - k :=
        Int.toNat_of_nonneg (by omega)
      rw [hkmul]
      push_cast
      rw [show ((2 : ℚ) ^ ((-(s : Int) - k).toNat : ℕ))
            = (2 : ℚ) ^ ((((-(s : Int) - k).toNat : ℕ)) : Int) from
          (zpow_natCast (2 : ℚ) _).symm,
        mul_assoc, ← zpow_add₀ (by norm_num : (2 : ℚ) ≠ 0), ht]
      rw [show -(s : Int) - k + k = -(s : Int) by ring]
      rw [zpow_neg, zpow_natCast, div_eq_mul_inv]
    · have he : e = (53 : Int) - (s : Int) := le_antisymm he_le (by omega)
      have hlow := pow2_binExp_le hapos
      rw [← hedef, he, h253] at hlow
      have h53m : ((2 : ℚ)) ^ (53 : ℕ) ≤ ((|m| : ℤ) : ℚ) :=
        (div_le_div_right h2s).mp hlow
      have hmeq : |m| = 2 ^ 53 := le_antisymm hm53 (by exact_mod_cast h53m)
      have hk : k = 1 - (s : Int) := by
        rw [hkdef, he]
        rw [show (53 : Int) - (s : Int) - 52 = 1 - (s : Int) by ring]
        exact max_eq_left (by omega)
      refine ⟨2 ^ 52, ?_⟩
      rw [hkmul, hk, hmeq, zpow_sub₀ (by norm_num : (2 : ℚ) ≠ 0), zpow_one,
        zpow_natCast]
      have hne : (2 : ℚ) ^ s ≠ 0 := ne_of_gt h2s
      field_simp
      norm_num
  have hround := roundScale_exact _ _ hrep
  unfold dblRound
  rw [if_neg hx0]
  simp only [habs]
  rw [hround]
  rcases lt_or_ge ((m : ℚ) / 2 ^ s) 0 with hneg | hpos
  · rw [if_pos hneg, ← habs, abs_of_neg hneg, neg_neg]
  · rw [if_neg (not_lt.mpr hpos), ← habs, abs_of_nonneg hpos]

/-- `dblRound` is the identity on integers of magnitude at most `2^53`. -/
theorem dblRound_int (m : Int) (hm53 : |m| ≤ 2 ^ 53) :
    dblRound ((m : ℚ)) = (m : ℚ) := by
  by_cases hm : m = 0
  · subst hm; simp [dblRound]
  · have := dblRound_dyadic m 0 hm hm53 (by omega)
    simpa using this

/-- `float()` of an integer with at most 53 bits converts exactly. -/
theorem pyFloat_small (c : Int) (hc53 : |c| ≤ 2 ^ 53) :
    pyFloat (.intV c) = .ok ((c : ℚ)) := by
  have hdc := dblRound_int c hc53
  have hcb : |dblRound ((c : ℚ))| < pow2 1024 := by
    rw [hdc]
    have h1 : |(c : ℚ)| ≤ (2 : ℚ) ^ (53 : ℕ) := by
      rw [← Int.cast_abs]
      exact_mod_cast hc53
    calc |(c : ℚ)| ≤ (2 : ℚ) ^ (53 : ℕ) := h1
      _ < (2 : ℚ) ^ (1024 : ℕ) := by norm_num
      _ = pow2 1024 := rfl
  simp only [pyFloat]
  rw [if_pos hcb, hdc]

/-- C4 (amended): for nonzero integer operands, `a DIV b` is the floor
quotient `Int.fdiv a b` (Python `//`, truncation toward negative
infinity), which agrees with truncation toward zero whenever `0 ≤ a` and
`0 < b`; `a / b` converts both operands to double-precision floats and
yields the **correctly rounded double** of the exact ratio — stated for
operands of magnitude at most `2^53`, which convert to double exactly; in
particular `7 DIV 2 = 3` and `7 / 2 = 3.5` (exactly representable). -/
theorem C4_division_semantics : ∀ a b : Int, b ≠ 0 →
    applyBinOp .INTEGER_DIV (.intV a) (.intV b) = .ok (.intV (Int.fdiv a b)) ∧
    (|a| ≤ 2 ^ 53 → |b| ≤ 2 ^ 53 →
      applyBinOp .FLOAT_DIV (.intV a) (.intV b)
        = .ok (.realV (dblRound ((a : ℚ) / (b : ℚ))))) ∧
    (0 ≤ a → 0 < b → Int.fdiv a b = Int.tdiv a b) ∧
    applyBinOp .INTEGER_DIV (.intV 7) (.intV 2) = .ok (.intV 3) ∧
    applyBinOp .FLOAT_DIV (.intV 7) (.intV 2) = .ok (.realV (7 / 2 : ℚ)) := by
  have hfd : ∀ (c d : Int), d ≠ 0 → |c| ≤ 2 ^ 53 → |d| ≤ 2 ^ 53 →
      applyBinOp .FLOAT_DIV (.intV c) (.intV d)
        = .ok (.realV (dblRound ((c : ℚ) / (d : ℚ)))) := by
    intro c d hd hc53 hd53
    have hd0 : ((d : ℚ)) ≠ 0 := Int.cast_ne_zero.mpr hd
    simp only [applyBinOp, pyFloatDiv, bind, Except.bind,
      pyFloat_small c hc53, pyFloat_small d hd53]
    rw [if_neg hd0]
  intro a b hb
  refine ⟨?_, hfd a b hb, ?_, rfl, ?_⟩
  · simp [applyBinOp, pyFloorDiv, hb]
  · intro ha hb2
    obtain ⟨m, rfl⟩ := Int.eq_ofNat_of_zero_le ha
    obtain ⟨n, rfl⟩ := Int.eq_ofNat_of_zero_le (le_of_lt hb2)
    cases m with
    | zero => simp [Int.fdiv, Int.tdiv]
    | succ j => rfl
  · have h72 := hfd 7 2 (by norm_num) (by norm_num) (by norm_num)
    rw [h72]
    have hq : dblRound (((7 : Int) : ℚ) / ((2 : Int) : ℚ)) = 7 / 2 := by
      have h := dblRound_dyadic 7 1 (by norm_num) (by norm_num) (by norm_num)
      push_cast at h ⊢
      simpa using h
    rw [hq]

/-- C4 witness: the amended theorem applied at `a = 7`, `b = 2`. -/
theorem C4_division_semantics_witness :
    applyBinOp .INTEGER_DIV (.intV 7) (.intV 2) = .ok (.intV (Int.fdiv 7 2)) ∧
    applyBinOp .FLOAT_DIV (.intV 7) (.intV 2)
      = .ok (.realV (dblRound (((7 : Int) : ℚ) / ((2 : Int) : ℚ)))) ∧
    Int.fdiv (7 : Int) 2 = Int.tdiv 7 2 := by
  refine ⟨(C4_division_semantics 7 2 (by norm_num)).1,
    (C4_division_semantics 7 2 (by norm_num)).2.1 (by norm_num) (by norm_num),
    (C4_division_semantics 7 2 (by norm_num)).2.2.1 (by norm_num) (by norm_num)⟩

/-- Looking up the key just stored by a dict update finds the new entry. -/
theorem find_dictInsert (k : PKey) (v : PySymbol) (l : List (PKey × PySymbol)) :
    (dictInsert k v l).find? (fun p => p.1 = k) = some (k, v) := by
  induction l with
  | nil => simp [dictInsert, List.find?]
  | cons hd t ih =>
    obtain ⟨k', v'⟩ := hd
    by_cases hk : k' = k
    · subst hk; simp [dictInsert, List.find?]
    · simp [dictInsert, hk, List.find?, ih]

/-- C7 (claim refuted): `ScopedSymbolTable` name handling is
case-**sensitive** — after inserting a `VarSymbol` named `x`, looking up
`X` finds nothing; and the program that declares `x` and references `X`
fails semantic analysis with an identifier-not-found error rather than
passing it. -/
theorem C7_counterexample :
    lookupLocal
      (ScopedSymbolTable.insert ⟨[], .vStr "global", 1⟩
        (.VarSymbol (.vStr "x") none))
      (.ofVal (.vStr "X")) = none ∧
    pipeSemErrCode (runPipeline defaultFlags 300 srcC7) = some .ID_NOT_FOUND := by
  exact ⟨rfl, by decide⟩

/-- C7 (amended): lookup is exact-match on the stored key: inserting a
symbol and looking up that same key (same spelling, any scope of the
chain) returns the symbol, and a local miss falls through to the enclosing
chain; but letter case is never normalised, so declaring `x` and
referencing `X` is a fatal identifier-not-found semantic error. -/
theorem C7_lookup_semantics :
    (∀ (s : ScopedSymbolTable) (rest : List ScopedSymbolTable) (sym : PySymbol),
      lookupChain (s.insert sym :: rest) sym.key = some sym) ∧
    (∀ (s : ScopedSymbolTable) (rest : List ScopedSymbolTable) (k : PKey),
      lookupLocal s k = none → lookupChain (s :: rest) k = lookupChain rest k) ∧
    pipeSemErrCode (runPipeline defaultFlags 300 srcC7) = some .ID_NOT_FOUND := by
  refine ⟨?_, ?_, by decide⟩
  · intro s rest sym
    simp [lookupChain, lookupLocal, ScopedSymbolTable.insert, find_dictInsert]
  · intro s rest k h
    simp [lookupChain, h]

/-- C7 witness: the enclosing-chain fallthrough applied to a concrete empty
scope. -/
theorem C7_lookup_semantics_witness :
    lookupChain [(⟨[], .vStr "global", 1⟩ : ScopedSymbolTable)]
      (.ofVal (.vStr "z")) = lookupChain [] (.ofVal (.vStr "z")) :=
  C7_lookup_semantics.2.1 _ _ _ rfl

/-- C8 (claim refuted): the run whose nested procedure `q` reads the
program-level `x` (absent from `q`'s top-of-stack frame) completes with no
runtime error at all — no fatal error propagates to the top level. -/
theorem C8_counterexample :
    pipeCompleted (runPipeline defaultFlags 300 srcC8) = true := by
  decide

/-- C8 (amended): `visit_Var` on a name absent from the top-of-stack
activation record returns the Python `None` value and execution simply
continues with the state unchanged (no exception is raised at the read);
concretely, the nested-procedure run completes normally and has stored
`None` under `y` in `q`'s popped frame. -/
theorem C8_absent_read_yields_none :
    (∀ (tbl : List (Nat × ProcInfo)) (g : Nat) (tok : Token) (st : ISt)
      (ar : ActivationRecord) (rest : List ActivationRecord),
      st.stack = ar :: rest → memGet ar.members tok.value = none →
      iVisit tbl (g + 1) (.Var tok) st = .ok (.pyNone, st)) ∧
    arLogGet (runPipeline defaultFlags 300 srcC8) (.vStr "q") (.vStr "y")
      = some .pyNone := by
  refine ⟨?_, by decide⟩
  intro tbl g tok st ar rest hstack hmem
  simp [iVisit, hstack, hmem]
  rfl

/-- C8 witness: the absent-read rule applied at a concrete state. -/
theorem C8_absent_read_yields_none_witness :
    iVisit [] 1 (.Var ⟨.ID, .vStr "y"⟩) st8w = .ok (.pyNone, st8w) :=
  C8_absent_read_yields_none.1 [] 0 _ st8w _ [] rfl rfl

/-- C10 (confirmed): when a statement starts with an identifier, the
parser treats it as a procedure call exactly when the lexer's current
character — the raw character right after the identifier's lexeme — is
`(`; otherwise it parses an assignment.  Hence `foo (1)` (with a space)
fails with an `UNEXPECTED_TOKEN` parse error at the `(` token, while
`foo(1)` parses as a `ProcedureCall`. -/
theorem C10_statement_dispatch :
    (∀ (g : Nat) (st : PSt), st.cur.type = .ID → st.rest.head? = some '(' →
      parseStatement (g + 1) st = parseProccall g st) ∧
    (∀ (g : Nat) (st : PSt), st.cur.type = .ID → ¬ st.rest.head? = some '(' →
      parseStatement (g + 1) st = parseAssignment g st) ∧
    parseSource 300 srcC10bad
      = .error (.parserError .UNEXPECTED_TOKEN ⟨.LPAREN, .vStr "("⟩) ∧
    parsedFirstStmtIsCall srcC10ok = true := by
  refine ⟨?_, ?_, rfl, rfl⟩
  · intro g st h1 h2
    simp [parseStatement, h1, h2]
  · intro g st h1 h2
    simp [parseStatement, h1, h2]

/-- C10 witness: the dispatch rule applied at a concrete parser state. -/
theorem C10_statement_dispatch_witness :
    parseStatement 1 ⟨⟨.ID, .vStr "foo"⟩, ['(']⟩
      = parseProccall 0 ⟨⟨.ID, .vStr "foo"⟩, ['(']⟩ :=
  C10_statement_dispatch.1 0 _ rfl rfl

/-- With no `}` anywhere in the remaining input, the `skip_comment` loop
never exits, for any number of iterations. -/
theorem skipCommentFuel_no_close :
    ∀ (f : Nat) (l : List Char), (∀ x ∈ l, x ≠ '}') → skipCommentFuel f l = none := by
  intro f
  induction f with
  | zero =>
    intro l h
    have hh : ¬ l.head? = some '}' := by
      cases l with
      | nil => simp
      | cons c r => simp; exact h c (by simp)
    simp [skipCommentFuel, hh]
  | succ g ih =>
    intro l h
    have hh : ¬ l.head? = some '}' := by
      cases l with
      | nil => simp
      | cons c r => simp; exact h c (by simp)
    rw [skipCommentFuel, if_neg hh]
    exact ih _ (fun x hx => h x (List.drop_subset _ _ hx))

/-- C5 (claim refuted, total model): an unterminated comment makes
`get_next_token` diverge (`hang`, not a `LexerError`), and an unterminated
string makes it return Python `None` (`noneReturned`, which crashes the
parser with an `AttributeError`, again not a `LexerError`). -/
theorem C5_counterexample :
    getNextToken 3 ('{' :: 'a' :: 'b' :: []) = .hang ∧
    getNextToken 3 ('\'' :: 'a' :: 'b' :: []) = .noneReturned := by
  exact ⟨by decide, by decide⟩

/-- C5 (amended): on input whose remaining text contains no closing `}`,
the `skip_comment` loop runs forever (no iteration count makes it exit) —
lexing neither terminates nor reports a lexical error; on input with no
closing quote, `string_builder` falls through and returns no token, and
`get_next_token` propagates the Python `None` instead of raising
`LexerError`. -/
theorem C5_unterminated_lexing :
    (∀ (f : Nat) (l : List Char), (∀ x ∈ l, x ≠ '}') →
      skipCommentFuel f l = none) ∧
    (∀ l : List Char, (∀ x ∈ l, x ≠ '\'') → stringBuilder l = none) ∧
    (∀ (f : Nat) (l : List Char), (∀ x ∈ l, x ≠ '}') →
      getNextToken f ('{' :: l) = .hang) ∧
    (∀ (f : Nat) (l : List Char), (∀ x ∈ l, x ≠ '\'') →
      getNextToken f ('\'' :: l) = .noneReturned) := by
  have hsb : ∀ l : List Char, (∀ x ∈ l, x ≠ '\'') → stringBuilder l = none := by
    intro l h
    have hd : l.dropWhile (fun c => !(c = '\'')) = [] := by
      rw [List.dropWhile_eq_nil_iff]
      intro x hx
      simp [h x hx]
    unfold stringBuilder
    rw [hd]
  have hsc : ∀ l : List Char, (∀ x ∈ l, x ≠ '}') → skipComment l = none := by
    intro l h
    have hd : l.dropWhile (fun c => !(c = '}')) = [] := by
      rw [List.dropWhile_eq_nil_iff]
      intro x hx
      simp [h x hx]
    unfold skipComment
    rw [hd]
  refine ⟨skipCommentFuel_no_close, hsb, ?_, ?_⟩
  · intro f l h
    rw [getNextToken.eq_def]
    simp [pyIsSpace, hsc l h]
  · intro f l h
    rw [getNextToken.eq_def]
    simp [pyIsSpace, hsb l h]

/-- C5 witness: the unterminated-comment and unterminated-string rules at
the concrete remainder `ab`. -/
theorem C5_unterminated_lexing_witness :
    skipCommentFuel 7 ('a' :: 'b' :: []) = none ∧
    stringBuilder ('a' :: 'b' :: []) = none := by
  exact ⟨C5_unterminated_lexing.1 7 _ (by decide),
    C5_unterminated_lexing.2.1 _ (by decide)⟩

/-- A digit character fails every branch test that `get_next_token` makes
before the digit branch. -/
theorem digit_char_facts (c : Char) (h : c.isDigit = true) :
    c ≠ ':' ∧ pyIsSpace c = false ∧ c ≠ '\'' ∧ c ≠ '{' ∧ c.isAlpha = false := by
  refine ⟨?_, ?_, ?_, ?_, ?_⟩
  · rintro rfl; exact absurd h (by decide)
  · simp only [pyIsSpace, decide_eq_false_iff_not]
    rintro (rfl | rfl | rfl | rfl | rfl | rfl) <;> exact absurd h (by decide)
  · rintro rfl; exact absurd h (by decide)
  · rintro rfl; exact absurd h (by decide)
  · simp only [Char.isDigit, Bool.and_eq_true, decide_eq_true_eq,
      UInt32.le_def, BitVec.le_def] at h
    simp only [Char.isAlpha, Char.isUpper, Char.isLower, Bool.or_eq_false_iff,
      Bool.and_eq_false_iff, decide_eq_false_iff_not, UInt32.le_def,
      BitVec.le_def, not_le]
    have e48 : (UInt32.toBitVec 48).toNat = 48 := rfl
    have e57 : (UInt32.toBitVec 57).toNat = 57 := rfl
    have e65 : (UInt32.toBitVec 65).toNat = 65 := rfl
    have e90 : (UInt32.toBitVec 90).toNat = 90 := rfl
    have e97 : (UInt32.toBitVec 97).toNat = 97 := rfl
    have e122 : (UInt32.toBitVec 122).toNat = 122 := rfl
    rw [e48, e57] at h
    rw [e65, e90, e97, e122]
    omega

/-- Splitting a digit run followed by a non-digit boundary. -/
theorem digits_takeWhile (ds t : List Char) (hds : ∀ c ∈ ds, c.isDigit = true)
    (ht : ∀ c, t.head? = some c → c.isDigit = false) :
    (ds ++ t).takeWhile Char.isDigit = ds ∧
    (ds ++ t).dropWhile Char.isDigit = t := by
  induction ds with
  | nil =>
    simp only [List.nil_append]
    cases t with
    | nil => simp
    | cons c r =>
      have hc := ht c rfl
      simp [List.takeWhile_cons, List.dropWhile_cons, hc]
  | cons d ds ih =>
    have hd : d.isDigit = true := hds d (by simp)
    have ihh := ih (fun c hc => hds c (List.mem_cons_of_mem _ hc))
    simp [List.takeWhile_cons, List.dropWhile_cons, hd, ihh.1, ihh.2]

/-- `Lexer.number` before a `..` range marker stays an integer constant and
leaves both dots unconsumed. -/
theorem lexNumber_range (ds t : List Char) (hds : ∀ c ∈ ds, c.isDigit = true) :
    lexNumber (ds ++ '.' :: '.' :: t)
      = (⟨.INTEGER_CONST, .vInt (digitsToNat ds : Int)⟩, '.' :: '.' :: t) := by
  have h := digits_takeWhile ds ('.' :: '.' :: t) hds
    (fun c hc => by simp at hc; subst hc; decide)
  unfold lexNumber
  simp only [h.1, h.2]
  simp

/-- `Lexer.number` on a pure digit run consumes it all as an integer. -/
theorem lexNumber_alldigits (ds : List Char) (hds : ∀ c ∈ ds, c.isDigit = true) :
    lexNumber ds = (⟨.INTEGER_CONST, .vInt (digitsToNat ds : Int)⟩, []) := by
  have h0 := digits_takeWhile ds [] hds (fun c hc => by simp at hc)
  have h : ds.takeWhile Char.isDigit = ds ∧ ds.dropWhile Char.isDigit = [] := by
    simpa using h0
  unfold lexNumber
  simp only [h.1, h.2]

/-- `Lexer.number` on digits, a dot and then a character that is neither a
digit nor a second dot produces a `REAL_CONST` (value `float("n.")`). -/
theorem lexNumber_real_nondigit (ds t : List Char) (c : Char)
    (hds : ∀ x ∈ ds, x.isDigit = true) (hc : c.isDigit = false) (hd : c ≠ '.') :
    lexNumber (ds ++ '.' :: c :: t)
      = (⟨.REAL_CONST, .vRat (realValue ds [])⟩, c :: t) := by
  have h := digits_takeWhile ds ('.' :: c :: t) hds
    (fun x hx => by simp at hx; subst hx; decide)
  unfold lexNumber
  simp only [h.1, h.2]
  simp [List.head?, hd, List.takeWhile_cons, List.dropWhile_cons, hc]

/-- `get_next_token` on a digit-headed input defers to `number`. -/
theorem getNextToken_digit (f : Nat) (c : Char) (r : List Char)
    (hc : c.isDigit = true) :
    getNextToken f (c :: r)
      = .tok (lexNumber (c :: r)).1 (lexNumber (c :: r)).2 := by
  obtain ⟨h1, h2, h3, h4, h5⟩ := digit_char_facts c hc
  rw [getNextToken.eq_def]
  simp [h1, h2, h3, h4, h5, hc]

/-- `get_next_token` on a dot-headed input produces a single `DOT`. -/
theorem getNextToken_dot (f : Nat) (t : List Char) :
    getNextToken f ('.' :: t) = .tok ⟨.DOT, .vStr "."⟩ t := by
  rw [getNextToken.eq_def]
  simp [pyIsSpace, singleCharTokenType]

/-- C6 (claim part refuted): an integer literal followed by `.` and a
non-digit is lexed as a **REAL_CONST** (the code only checks that the next
character is not a second `.`, not that a digit follows): `7.x` gives
`REAL_CONST 7.0` and then `x`, not `INTEGER_CONST 7` followed by `DOT`. -/
theorem C6_counterexample :
    getNextToken 5 ('7' :: '.' :: 'x' :: []) = .tok ⟨.REAL_CONST, .vRat 7⟩ ('x' :: []) ∧
    Token.mk .REAL_CONST (.vRat 7) ≠ Token.mk .INTEGER_CONST (.vInt 7) := by
  constructor
  · rw [getNextToken_digit 5 '7' ('.' :: 'x' :: []) (by decide)]
    rw [show ('7' : Char) :: '.' :: 'x' :: [] = ('7' :: []) ++ '.' :: 'x' :: [] from rfl]
    rw [lexNumber_real_nondigit ('7' :: []) [] 'x' (by decide) (by decide) (by decide)]
    have hv : realValue ('7' :: []) [] = 7 := by
      have hn : digitsToNat ('7' :: []) = 7 := by decide
      have h0 : digitsToNat [] = 0 := rfl
      unfold realValue
      rw [hn, h0]
      norm_num
    rw [hv]
  · decide

/-- C6 (amended): for all integer literals `n`, `m`: lexing `n..m` yields
`INTEGER_CONST n`, `DOT`, `DOT`, `INTEGER_CONST m` and never a
`REAL_CONST`; but an `n.` followed by any character other than a digit or
a second dot yields `REAL_CONST` with value `n` (there is no INTEGER+DOT
split in that case). -/
theorem C6_range_lexing :
    ∀ (f : Nat) (d1 d2 t : List Char) (c : Char),
      d1 ≠ [] → (∀ x ∈ d1, x.isDigit = true) →
      d2 ≠ [] → (∀ x ∈ d2, x.isDigit = true) →
      c.isDigit = false → c ≠ '.' →
      (getNextToken f (d1 ++ '.' :: '.' :: d2)
        = .tok ⟨.INTEGER_CONST, .vInt (digitsToNat d1 : Int)⟩ ('.' :: '.' :: d2)) ∧
      (getNextToken f ('.' :: '.' :: d2) = .tok ⟨.DOT, .vStr "."⟩ ('.' :: d2)) ∧
      (getNextToken f ('.' :: d2) = .tok ⟨.DOT, .vStr "."⟩ d2) ∧
      (getNextToken f d2
        = .tok ⟨.INTEGER_CONST, .vInt (digitsToNat d2 : Int)⟩ []) ∧
      (getNextToken f (d1 ++ '.' :: c :: t)
        = .tok ⟨.REAL_CONST, .vRat (realValue d1 [])⟩ (c :: t)) := by
  intro f d1 d2 t c h1ne h1d h2ne h2d hcd hcne
  obtain ⟨e1, es1, rfl⟩ : ∃ e es, d1 = e :: es := by
    cases d1 with
    | nil => exact absurd rfl h1ne
    | cons e es => exact ⟨e, es, rfl⟩
  obtain ⟨e2, es2, rfl⟩ : ∃ e es, d2 = e :: es := by
    cases d2 with
    | nil => exact absurd rfl h2ne
    | cons e es => exact ⟨e, es, rfl⟩
  have he1 : e1.isDigit = true := h1d e1 (by simp)
  have he2 : e2.isDigit = true := h2d e2 (by simp)
  refine ⟨?_, getNextToken_dot f _, getNextToken_dot f _, ?_, ?_⟩
  · rw [show (e1 :: es1) ++ '.' :: '.' :: (e2 :: es2)
        = e1 :: (es1 ++ '.' :: '.' :: (e2 :: es2)) from rfl]
    rw [getNextToken_digit f e1 _ he1]
    rw [show e1 :: (es1 ++ '.' :: '.' :: (e2 :: es2))
        = (e1 :: es1) ++ '.' :: '.' :: (e2 :: es2) from rfl]
    rw [lexNumber_range _ _ h1d]
  · rw [getNextToken_digit f e2 _ he2, lexNumber_alldigits _ h2d]
  · rw [show (e1 :: es1) ++ '.' :: c :: t = e1 :: (es1 ++ '.' :: c :: t) from rfl]
    rw [getNextToken_digit f e1 _ he1]
    rw [show e1 :: (es1 ++ '.' :: c :: t) = (e1 :: es1) ++ '.' :: c :: t from rfl]
    rw [lexNumber_real_nondigit _ _ _ h1d hcd hcne]

/-- C6 witness: the range-lexing law instantiated on `7..3`. -/
theorem C6_range_lexing_witness :
    getNextToken 5 ('7' :: '.' :: '.' :: '3' :: [])
      = .tok ⟨.INTEGER_CONST, .vInt 7⟩ ('.' :: '.' :: '3' :: []) ∧
    getNextToken 5 ('.' :: '.' :: '3' :: []) = .tok ⟨.DOT, .vStr "."⟩ ('.' :: '3' :: []) ∧
    getNextToken 5 ('.' :: '3' :: []) = .tok ⟨.DOT, .vStr "."⟩ ('3' :: []) ∧
    getNextToken 5 ('3' :: []) = .tok ⟨.INTEGER_CONST, .vInt 3⟩ [] := by
  have h := C6_range_lexing 5 ('7' :: []) ('3' :: []) [] 'x'
    (by decide) (by decide) (by decide) (by decide) (by decide) (by decide)
  exact ⟨h.1, h.2.1, h.2.2.1, h.2.2.2.1⟩

/-- A selected IF/WHILE branch only logs: the state is unchanged except,
possibly, its `output`. -/
theorem branchLog_ok (s : AST) (tag : String) (st : ISt) (v : Value) (st' : ISt)
    (h : branchLog s tag st = .ok (v, st')) :
    st'.stack = st.stack ∧ st'.arLog = st.arLog ∧ st'.events = st.events ∧
    v = .pyNone := by
  unfold branchLog at h
  cases hsa : stmtAttrs s with
  | none => rw [hsa] at h; simp at h
  | some x =>
    rw [hsa] at h
    simp only [Except.ok.injEq, Prod.mk.injEq] at h
    obtain ⟨rfl, rfl⟩ := h
    simp

/-- Same fact for the ELSE slot (which may instead raise). -/
theorem elseLog_ok (e? : Option AST) (st : ISt) (v : Value) (st' : ISt)
    (h : elseLog e? st = .ok (v, st')) :
    st'.stack = st.stack ∧ st'.arLog = st.arLog ∧ st'.events = st.events ∧
    v = .pyNone := by
  unfold elseLog at h
  cases e? with
  | none => simp at h
  | some e => exact branchLog_ok e _ st v st' h

/-- `visit_WhileStatement` over a canonical `var CMP literal` relation
never touches the call stack, any activation record, or the push/pop
trace: it evaluates the relation's left side once, reads the right side's
`value` attribute, and at most logs — the body statement is never
executed and the relation is never re-evaluated. -/
theorem whileVisit_no_execution :
    ∀ (tbl : List (Nat × ProcInfo)) (g : Nat) (nm : TokenType)
      (xtok cmptok ntok : Token) (body : AST) (st : ISt) (v : Value) (st' : ISt),
      iVisit tbl (g + 1)
        (.WhileStatement nm (.Relation (.Var xtok) cmptok (.Num ntok)) body) st
        = .ok (v, st') →
      st'.stack = st.stack ∧ st'.arLog = st.arLog ∧ st'.events = st.events ∧
      v = .pyNone := by
  intro tbl g nm xtok cmptok ntok body st v st' h
  cases g with
  | zero => simp [iVisit, bind, Except.bind] at h
  | succ k =>
    cases hs : st.stack with
    | nil => simp [iVisit, hs, bind, Except.bind] at h
    | cons ar rest =>
      simp only [iVisit, hs, valueAttr, valueAttrTV, Option.map_some, Option.map,
        bind, Except.bind, pure, Except.pure] at h
      split at h
      case _ =>
        split at h
        · obtain ⟨h1, h2, h3, h4⟩ := branchLog_ok _ _ _ _ _ h
          exact ⟨h1.trans hs, h2, h3, h4⟩
        · simp only [pure, Except.pure, Except.ok.injEq, Prod.mk.injEq] at h
          obtain ⟨rfl, rfl⟩ := h
          exact ⟨hs, rfl, rfl, rfl⟩
      case _ =>
        cases hc : pyGtB ((memGet ar.members xtok.value).getD .pyNone)
            (tokValToValue ntok.value) with
        | error e => rw [hc] at h; simp [liftRt] at h
        | ok b =>
          rw [hc] at h
          simp only [liftRt] at h
          split at h
          · obtain ⟨h1, h2, h3, h4⟩ := branchLog_ok _ _ _ _ _ h
            exact ⟨h1.trans hs, h2, h3, h4⟩
          · simp only [pure, Except.pure, Except.ok.injEq, Prod.mk.injEq] at h
            obtain ⟨rfl, rfl⟩ := h
            exact ⟨hs, rfl, rfl, rfl⟩
      case _ =>
        cases hc : pyGeB ((memGet ar.members xtok.value).getD .pyNone)
            (tokValToValue ntok.value) with
        | error e => rw [hc] at h; simp [liftRt] at h
        | ok b =>
          rw [hc] at h
          simp only [liftRt] at h
          split at h
          · obtain ⟨h1, h2, h3, h4⟩ := branchLog_ok _ _ _ _ _ h
            exact ⟨h1.trans hs, h2, h3, h4⟩
          · simp only [pure, Except.pure, Except.ok.injEq, Prod.mk.injEq] at h
            obtain ⟨rfl, rfl⟩ := h
            exact ⟨hs, rfl, rfl, rfl⟩
      case _ =>
        cases hc : pyLtB ((memGet ar.members xtok.value).getD .pyNone)
            (tokValToValue ntok.value) with
        | error e => rw [hc] at h; simp [liftRt] at h
        | ok b =>
          rw [hc] at h
          simp only [liftRt] at h
          split at h
          · obtain ⟨h1, h2, h3, h4⟩ := branchLog_ok _ _ _ _ _ h
            exact ⟨h1.trans hs, h2, h3, h4⟩
          · simp only [pure, Except.pure, Except.ok.injEq, Prod.mk.injEq] at h
            obtain ⟨rfl, rfl⟩ := h
            exact ⟨hs, rfl, rfl, rfl⟩
      case _ =>
        cases hc : pyLeB ((memGet ar.members xtok.value).getD .pyNone)
            (tokValToValue ntok.value) with
        | error e => rw [hc] at h; simp [liftRt] at h
        | ok b =>
          rw [hc] at h
          simp only [liftRt] at h
          split at h
          · obtain ⟨h1, h2, h3, h4⟩ := branchLog_ok _ _ _ _ _ h
            exact ⟨h1.trans hs, h2, h3, h4⟩
          · simp only [pure, Except.pure, Except.ok.injEq, Prod.mk.injEq] at h
            obtain ⟨rfl, rfl⟩ := h
            exact ⟨hs, rfl, rfl, rfl⟩
      case _ =>
        simp only [pure, Except.pure, Except.ok.injEq, Prod.mk.injEq] at h
        obtain ⟨rfl, rfl⟩ := h
        exact ⟨hs, rfl, rfl, rfl⟩

/-- `visit_IfStatement` over a canonical `var CMP literal` relation never
touches the call stack, any activation record, or the push/pop trace —
whichever of THEN/ELSE is selected is only inspected for a log message,
never executed. -/
theorem ifVisit_no_execution :
    ∀ (tbl : List (Nat × ProcInfo)) (g : Nat) (nm : TokenType)
      (xtok cmptok ntok : Token) (thenS : AST) (elseS : Option AST)
      (st : ISt) (v : Value) (st' : ISt),
      iVisit tbl (g + 1)
        (.IfStatement nm (.Relation (.Var xtok) cmptok (.Num ntok)) thenS elseS) st
        = .ok (v, st') →
      st'.stack = st.stack ∧ st'.arLog = st.arLog ∧ st'.events = st.events ∧
      v = .pyNone := by
  intro tbl g nm xtok cmptok ntok thenS elseS st v st' h
  cases g with
  | zero => simp [iVisit, bind, Except.bind] at h
  | succ k =>
    cases hs : st.stack with
    | nil => simp [iVisit, hs, bind, Except.bind] at h
    | cons ar rest =>
      simp only [iVisit, hs, valueAttr, valueAttrTV, Option.map_some, Option.map,
        bind, Except.bind, pure, Except.pure] at h
      split at h
      case _ =>
        split at h
        · obtain ⟨h1, h2, h3, h4⟩ := branchLog_ok _ _ _ _ _ h
          exact ⟨h1.trans hs, h2, h3, h4⟩
        · obtain ⟨h1, h2, h3, h4⟩ := elseLog_ok _ _ _ _ h
          exact ⟨h1.trans hs, h2, h3, h4⟩
      case _ =>
        cases hc : pyLtB ((memGet ar.members xtok.value).getD .pyNone)
            (tokValToValue ntok.value) with
        | error e => rw [hc] at h; simp [liftRt] at h
        | ok b =>
          rw [hc] at h
          simp only [liftRt] at h
          split at h
          · obtain ⟨h1, h2, h3, h4⟩ := branchLog_ok _ _ _ _ _ h
            exact ⟨h1.trans hs, h2, h3, h4⟩
          · obtain ⟨h1, h2, h3, h4⟩ := elseLog_ok _ _ _ _ h
            exact ⟨h1.trans hs, h2, h3, h4⟩
      case _ =>
        cases hc : pyLeB ((memGet ar.members xtok.value).getD .pyNone)
            (tokValToValue ntok.value) with
        | error e => rw [hc] at h; simp [liftRt] at h
        | ok b =>
          rw [hc] at h
          simp only [liftRt] at h
          split at h
          · obtain ⟨h1, h2, h3, h4⟩ := branchLog_ok _ _ _ _ _ h
            exact ⟨h1.trans hs, h2, h3, h4⟩
          · obtain ⟨h1, h2, h3, h4⟩ := elseLog_ok _ _ _ _ h
            exact ⟨h1.trans hs, h2, h3, h4⟩
      case _ =>
        cases hc : pyGtB ((memGet ar.members xtok.value).getD .pyNone)
            (tokValToValue ntok.value) with
        | error e => rw [hc] at h; simp [liftRt] at h
        | ok b =>
          rw [hc] at h
          simp only [liftRt] at h
          split at h
          · obtain ⟨h1, h2, h3, h4⟩ := branchLog_ok _ _ _ _ _ h
            exact ⟨h1.trans hs, h2, h3, h4⟩
          · obtain ⟨h1, h2, h3, h4⟩ := elseLog_ok _ _ _ _ h
            exact ⟨h1.trans hs, h2, h3, h4⟩
      case _ =>
        cases hc : pyGeB ((memGet ar.members xtok.value).getD .pyNone)
            (tokValToValue ntok.value) with
        | error e => rw [hc] at h; simp [liftRt] at h
        | ok b =>
          rw [hc] at h
          simp only [liftRt] at h
          split at h
          · obtain ⟨h1, h2, h3, h4⟩ := branchLog_ok _ _ _ _ _ h
            exact ⟨h1.trans hs, h2, h3, h4⟩
          · obtain ⟨h1, h2, h3, h4⟩ := elseLog_ok _ _ _ _ h
            exact ⟨h1.trans hs, h2, h3, h4⟩
      case _ =>
        simp only [pure, Except.pure, Except.ok.injEq, Prod.mk.injEq] at h
        obtain ⟨rfl, rfl⟩ := h
        exact ⟨hs, rfl, rfl, rfl⟩

/-- C1 (claim refuted): in `BEGIN x := 0; WHILE x < 1 DO x := 5 END` the
relation holds, yet after the run the program's activation record still
maps `x` to `0` — the body was never executed (the claim requires `x = 5`
after the loop terminates); likewise `IF x = 0 THEN x := 7 ELSE x := 9`
leaves `x = 0` — neither branch is executed. -/
theorem C1_counterexample :
    arLogGet (runPipeline defaultFlags 300 srcC1w) (.vStr "p") (.vStr "x")
      = some (.intV 0) ∧
    arLogGet (runPipeline defaultFlags 300 srcC1i) (.vStr "p") (.vStr "x")
      = some (.intV 0) ∧
    some (Value.intV 0) ≠ some (Value.intV 5) ∧
    some (Value.intV 0) ≠ some (Value.intV 7) := by
  exact ⟨by decide, by decide, by decide, by decide⟩

/-- C1 (amended): `visit_IfStatement` and `visit_WhileStatement` evaluate
the relation's left operand once and read the right operand's literal
`value` attribute; whichever comparison holds, they at most emit a log
line — the branch/body statement is **never executed**, no activation
record changes, WHILE never re-evaluates its relation and never loops.
Stated generally for a `var CMP literal` relation and arbitrary bodies,
plus the two concrete runs (`x` stays `0` in both). -/
theorem C1_if_while_only_log :
    (∀ (tbl : List (Nat × ProcInfo)) (g : Nat) (nm : TokenType)
      (xtok cmptok ntok : Token) (body : AST) (st : ISt) (v : Value) (st' : ISt),
      iVisit tbl (g + 1)
        (.WhileStatement nm (.Relation (.Var xtok) cmptok (.Num ntok)) body) st
        = .ok (v, st') →
      st'.stack = st.stack ∧ st'.arLog = st.arLog ∧ st'.events = st.events ∧
      v = .pyNone) ∧
    (∀ (tbl : List (Nat × ProcInfo)) (g : Nat) (nm : TokenType)
      (xtok cmptok ntok : Token) (thenS : AST) (elseS : Option AST)
      (st : ISt) (v : Value) (st' : ISt),
      iVisit tbl (g + 1)
        (.IfStatement nm (.Relation (.Var xtok) cmptok (.Num ntok)) thenS elseS) st
        = .ok (v, st') →
      st'.stack = st.stack ∧ st'.arLog = st.arLog ∧ st'.events = st.events ∧
      v = .pyNone) ∧
    arLogGet (runPipeline defaultFlags 300 srcC1w) (.vStr "p") (.vStr "x")
      = some (.intV 0) ∧
    arLogGet (runPipeline defaultFlags 300 srcC1i) (.vStr "p") (.vStr "x")
      = some (.intV 0) := by
  exact ⟨whileVisit_no_execution, ifVisit_no_execution, by decide, by decide⟩

/-- C1 witness: the WHILE rule applied at a concrete state (relation
`x = 1` with `x` unbound, body `NoOp`). -/
theorem C1_if_while_only_log_witness :
    (iVisit [] 2
      (.WhileStatement .WHILE
        (.Relation (.Var ⟨.ID, .vStr "x"⟩) ⟨.EQUAL, .vStr "="⟩
          (.Num ⟨.INTEGER_CONST, .vInt 1⟩)) .NoOp) st1w).map (fun r => r.2.stack)
      = .ok st1w.stack := by
  have hrun : iVisit [] 2
      (.WhileStatement .WHILE
        (.Relation (.Var ⟨.ID, .vStr "x"⟩) ⟨.EQUAL, .vStr "="⟩
          (.Num ⟨.INTEGER_CONST, .vInt 1⟩)) .NoOp) st1w
      = .ok (.pyNone, st1w) := rfl
  have h := C1_if_while_only_log.1 [] 1 .WHILE ⟨.ID, .vStr "x"⟩
    ⟨.EQUAL, .vStr "="⟩ ⟨.INTEGER_CONST, .vInt 1⟩ .NoOp st1w .pyNone st1w hrun
  rw [hrun]
  exact h.1 ▸ rfl

/-- C2 (claim refuted): `srcC2` references the undeclared identifiers `y`
and `x`, but only inside an IF statement — semantic analysis passes and
the program reaches interpretation (and even completes), because
`visit_IfStatement` never descends into the relation or the branches. -/
theorem C2_counterexample :
    pipeCompleted (runPipeline defaultFlags 300 srcC2) = true := by
  decide

/-- C2 (amended): a bare identifier reference that the analyzer's
traversal actually visits and that does not resolve through the scope
chain is a fatal `ID_NOT_FOUND` error (first conjunct, general); a plain
undeclared assignment target is caught end to end (second conjunct); but
the traversal never descends into IF/WHILE statements, so an undeclared
identifier there passes analysis and reaches interpretation (third
conjunct). -/
theorem C2_undeclared_identifier :
    (∀ (g : Nat) (st : ASt) (tok : Token),
      lookupChain st.scopes (.ofVal tok.value) = none →
      saVisit (g + 1) (.Var tok) st
        = .error (.semanticError .ID_NOT_FOUND tok)) ∧
    pipeSemErrCode (runPipeline defaultFlags 300 srcC2b) = some .ID_NOT_FOUND ∧
    pipeCompleted (runPipeline defaultFlags 300 srcC2) = true := by
  refine ⟨?_, by decide, by decide⟩
  intro g st tok h
  simp [saVisit, h]

/-- C2 witness: the unresolved-identifier rule at the empty scope chain. -/
theorem C2_undeclared_identifier_witness :
    saVisit 1 (.Var ⟨.ID, .vStr "y"⟩) ⟨[], [], 0⟩
      = .error (.semanticError .ID_NOT_FOUND ⟨.ID, .vStr "y"⟩) :=
  C2_undeclared_identifier.1 0 ⟨[], [], 0⟩ ⟨.ID, .vStr "y"⟩ rfl

/-- Net depth distributes over concatenation. -/
theorem evNet_append (a b : List StackEv) : evNet (a ++ b) = evNet a + evNet b := by
  simp [evNet, List.count_append]
  ring

/-- The empty sequence is balanced. -/
theorem evBalanced_nil : evBalanced ([] : List StackEv) := by
  refine ⟨rfl, ?_⟩
  intro p s hp
  have hp' : p = [] := by
    cases p with
    | nil => rfl
    | cons a t => simp at hp
  subst hp'
  simp [evNet]

/-- Balanced sequences compose. -/
theorem evBalanced_append {a b : List StackEv}
    (ha : evBalanced a) (hb : evBalanced b) : evBalanced (a ++ b) := by
  refine ⟨by rw [evNet_append, ha.1, hb.1]; ring, ?_⟩
  intro p s hp
  rcases List.append_eq_append_iff.mp hp with ⟨w, hw1, hw2⟩ | ⟨w, hw1, hw2⟩
  · -- p extends a into b: p = a ++ w with b = w ++ s
    subst hw1
    have := hb.2 w s hw2
    rw [evNet_append, ha.1]
    omega
  · -- p is a prefix of a
    have := ha.2 p w hw1
    exact this

/-- Wrapping a balanced body in one push/pop pair stays balanced. -/
theorem evBalanced_wrap {es : List StackEv} (h : evBalanced es) :
    evBalanced (.push :: (es ++ [.pop])) := by
  have hpush : evNet [StackEv.push] = 1 := by
    simp [evNet, List.count_cons, List.count_nil]
  have hpop : evNet [StackEv.pop] = -1 := by
    simp [evNet, List.count_cons, List.count_nil]
  constructor
  · rw [show (StackEv.push :: (es ++ [StackEv.pop]))
        = [StackEv.push] ++ (es ++ [StackEv.pop]) from rfl]
    rw [evNet_append, evNet_append, hpush, hpop, h.1]
    ring
  · intro p s hp
    cases p with
    | nil => simp [evNet]
    | cons e p' =>
      injection hp with he hp2
      subst he
      rw [show (StackEv.push :: p') = [StackEv.push] ++ p' from rfl,
        evNet_append, hpush]
      rcases List.append_eq_append_iff.mp hp2 with ⟨w, hw1, hw2⟩ | ⟨w, hw1, hw2⟩
      · -- p' = es ++ w with [pop] = w ++ s
        subst hw1
        rw [evNet_append, h.1]
        cases w with
        | nil => simp [evNet]
        | cons x w' =>
          injection hw2 with hx hw'
          subst hx
          have hw0 : w' = [] := (List.append_eq_nil.mp hw'.symm).1
          subst hw0
          rw [hpop]
          omega
      · -- p' is a prefix of es
        have := h.2 p' w hw1
        omega

/-- `StInv` is reflexive. -/
theorem StInv.rfl (a : ISt) : StInv a a :=
  ⟨Eq.refl _, [], by simp, evBalanced_nil⟩

/-- `StInv` composes along sequential execution. -/
theorem StInv.trans {a b c : ISt} (h1 : StInv a b) (h2 : StInv b c) :
    StInv a c := by
  obtain ⟨hl1, es1, he1, hb1⟩ := h1
  obtain ⟨hl2, es2, he2, hb2⟩ := h2
  refine ⟨hl2.trans hl1, es1 ++ es2, ?_, evBalanced_append hb1 hb2⟩
  rw [he2, he1, List.append_assoc]

/-- States with identical stack and events are `StInv`-related. -/
theorem StInv.of_eq {a b : ISt} (hs : b.stack = a.stack)
    (he : b.events = a.events) : StInv a b :=
  ⟨by rw [hs], [], by simp [he], evBalanced_nil⟩

/-- Logging preserves the invariant. -/
theorem StInv.log {a b : ISt} (h : StInv a b) (m : String) :
    StInv a (ilog b m) :=
  h.trans (StInv.of_eq (ilog_stack b m) (ilog_events b m))

/-- `pushAR` prepends exactly one frame. -/
@[simp] theorem pushAR_stack (ar : ActivationRecord) (st : ISt) :
    (pushAR ar st).stack = ar :: st.stack := rfl

/-- `pushAR` emits exactly one push event. -/
@[simp] theorem pushAR_events (ar : ActivationRecord) (st : ISt) :
    (pushAR ar st).events = st.events ++ [StackEv.push] := rfl

/-- Inversion for a successful `popAR`. -/
theorem popAR_ok {st : ISt} {v : Value} {st' : ISt}
    (h : popAR st = .ok (v, st')) :
    ∃ a rest, st.stack = a :: rest ∧ st'.stack = rest ∧
      st'.events = st.events ++ [StackEv.pop] ∧ v = .pyNone := by
  unfold popAR at h
  cases hs : st.stack with
  | nil => rw [hs] at h; simp at h
  | cons a rest =>
    rw [hs] at h
    simp only [Except.ok.injEq, Prod.mk.injEq] at h
    obtain ⟨rfl, rfl⟩ := h
    exact ⟨a, rest, Eq.refl _, rfl, rfl, rfl⟩

/-- Master call-stack invariant: every successful visit (statement or
expression), sequence visit, and argument binding restores the call-stack
depth and emits a balanced push/pop event trace. -/
theorem iVisit_stack_invariant : ∀ (f : Nat),
    (∀ (tbl : List (Nat × ProcInfo)) (node : AST) (st : ISt) (v : Value)
      (st' : ISt), iVisit tbl f node st = .ok (v, st') → StInv st st') ∧
    (∀ (tbl : List (Nat × ProcInfo)) (nodes : List AST) (st st' : ISt),
      iVisitSeq tbl f nodes st = .ok st' → StInv st st') ∧
    (∀ (tbl : List (Nat × ProcInfo)) (pairs : List (PySymbol × AST))
      (acc : List (TokenValue × Value)) (st : ISt)
      (ms : List (TokenValue × Value)) (st' : ISt),
      iBindArgs tbl f pairs acc st = .ok (ms, st') → StInv st st') := by
  intro f
  induction f with
  | zero =>
    refine ⟨?_, ?_, ?_⟩
    · intro tbl node st v st' h; simp [iVisit] at h
    · intro tbl nodes st st' h; simp [iVisitSeq] at h
    · intro tbl pairs acc st ms st' h; simp [iBindArgs] at h
  | succ g ih =>
    obtain ⟨ihV, ihS, ihB⟩ := ih
    refine ⟨?_, ?_, ?_⟩
    · intro tbl node st v st' h
      cases node with
      | Program name blk =>
        simp only [iVisit] at h
        cases hb : iVisit tbl g blk
            (ilog (pushAR ⟨name, .PROGRAM, 1, []⟩ (ilog st "ENTER: PROGRAM"))
              "CALL STACK") with
        | error e => rw [hb] at h; simp [bind, Except.bind] at h
        | ok p =>
          obtain ⟨v1, stb⟩ := p
          rw [hb] at h
          simp only [bind, Except.bind] at h
          obtain ⟨hl, es1, hev, hbal⟩ := ihV tbl blk _ _ _ hb
          obtain ⟨a2, rest2, hs2, hs2', he2, _⟩ := popAR_ok h
          have hstb_stack : stb.stack = a2 :: rest2 := by simpa using hs2
          have hev' : st'.events = stb.events ++ [StackEv.pop] := by
            simpa using he2
          have hlB : stb.stack.length = st.stack.length + 1 := by
            simpa using hl
          have hevB : stb.events = (st.events ++ [StackEv.push]) ++ es1 := by
            simpa using hev
          refine ⟨?_, StackEv.push :: (es1 ++ [StackEv.pop]), ?_,
            evBalanced_wrap hbal⟩
          · rw [hs2']
            rw [hstb_stack] at hlB
            simp at hlB
            omega
          · rw [hev', hevB]
            simp [List.append_assoc]
      | Block decls comp =>
        simp only [iVisit] at h
        cases h1 : iVisitSeq tbl g decls st with
        | error e => rw [h1] at h; simp [bind, Except.bind] at h
        | ok st1 =>
          rw [h1] at h
          simp only [bind, Except.bind] at h
          cases h2 : iVisit tbl g comp st1 with
          | error e => rw [h2] at h; simp at h
          | ok p =>
            obtain ⟨v2, st2⟩ := p
            rw [h2] at h
            simp only [pure, Except.pure, Except.ok.injEq, Prod.mk.injEq] at h
            obtain ⟨rfl, rfl⟩ := h
            exact (ihS tbl decls st st1 h1).trans (ihV tbl comp st1 v2 st2 h2)
      | VarDecl a b =>
        simp only [iVisit, pure, Except.pure, Except.ok.injEq,
          Prod.mk.injEq] at h
        obtain ⟨rfl, rfl⟩ := h
        exact StInv.rfl st
      | TypeNode tok =>
        simp only [iVisit, pure, Except.pure, Except.ok.injEq,
          Prod.mk.injEq] at h
        obtain ⟨rfl, rfl⟩ := h
        exact StInv.rfl st
      | Str tok =>
        simp only [iVisit, pure, Except.pure, Except.ok.injEq,
          Prod.mk.injEq] at h
        obtain ⟨rfl, rfl⟩ := h
        exact StInv.rfl st
      | WRITE op val =>
        simp only [iVisit] at h
        split at h <;>
        · simp only [pure, Except.pure, Except.ok.injEq, Prod.mk.injEq] at h
          obtain ⟨rfl, rfl⟩ := h
          exact StInv.of_eq (ilog_stack _ _) (ilog_events _ _)
      | READ op ps =>
        simp only [iVisit] at h
        split at h <;>
        · simp only [pure, Except.pure, Except.ok.injEq, Prod.mk.injEq] at h
          obtain ⟨rfl, rfl⟩ := h
          exact StInv.of_eq (ilog_stack _ _) (ilog_events _ _)
      | Num tok =>
        simp only [iVisit, pure, Except.pure, Except.ok.injEq,
          Prod.mk.injEq] at h
        obtain ⟨rfl, rfl⟩ := h
        exact StInv.rfl st
      | NoOp =>
        simp only [iVisit, pure, Except.pure, Except.ok.injEq,
          Prod.mk.injEq] at h
        obtain ⟨rfl, rfl⟩ := h
        exact StInv.rfl st
      | ProcedureDecl a b c =>
        simp only [iVisit, pure, Except.pure, Except.ok.injEq,
          Prod.mk.injEq] at h
        obtain ⟨rfl, rfl⟩ := h
        exact StInv.rfl st
      | BinOp l op r =>
        simp only [iVisit] at h
        split at h
        · cases h1 : iVisit tbl g l st with
          | error e => rw [h1] at h; simp [bind, Except.bind] at h
          | ok p1 =>
            obtain ⟨a, st1⟩ := p1
            rw [h1] at h
            simp only [bind, Except.bind] at h
            cases h2 : iVisit tbl g r st1 with
            | error e => rw [h2] at h; simp at h
            | ok p2 =>
              obtain ⟨b, st2⟩ := p2
              rw [h2] at h
              simp only [bind, Except.bind] at h
              cases h3 : applyBinOp op.type a b with
              | error e => rw [h3] at h; simp [liftRt] at h
              | ok vv =>
                rw [h3] at h
                simp only [liftRt, bind, Except.bind, pure, Except.pure,
                  Except.ok.injEq, Prod.mk.injEq] at h
                obtain ⟨rfl, rfl⟩ := h
                exact (ihV tbl l st a st1 h1).trans (ihV tbl r st1 b st2 h2)
        · simp only [pure, Except.pure, Except.ok.injEq, Prod.mk.injEq] at h
          obtain ⟨rfl, rfl⟩ := h
          exact StInv.rfl st
      | UnaryOp op e =>
        simp only [iVisit] at h
        split at h
        · cases h1 : iVisit tbl g e st with
          | error e2 => rw [h1] at h; simp [bind, Except.bind] at h
          | ok p1 =>
            obtain ⟨v1, st1⟩ := p1
            rw [h1] at h
            simp only [bind, Except.bind] at h
            cases v1 with
            | intV n =>
              simp only [pure, Except.pure, Except.ok.injEq,
                Prod.mk.injEq] at h
              obtain ⟨rfl, rfl⟩ := h
              exact ihV tbl e st _ _ h1
            | realV q =>
              simp only [pure, Except.pure, Except.ok.injEq,
                Prod.mk.injEq] at h
              obtain ⟨rfl, rfl⟩ := h
              exact ihV tbl e st _ _ h1
            | strV s2 => simp at h
            | pyNone => simp at h
        · split at h
          · cases h1 : iVisit tbl g e st with
            | error e2 => rw [h1] at h; simp [bind, Except.bind] at h
            | ok p1 =>
              obtain ⟨v1, st1⟩ := p1
              rw [h1] at h
              simp only [bind, Except.bind] at h
              cases v1 with
              | intV n =>
                simp only [pure, Except.pure, Except.ok.injEq,
                  Prod.mk.injEq] at h
                obtain ⟨rfl, rfl⟩ := h
                exact ihV tbl e st _ _ h1
              | realV q =>
                simp only [pure, Except.pure, Except.ok.injEq,
                  Prod.mk.injEq] at h
                obtain ⟨rfl, rfl⟩ := h
                exact ihV tbl e st _ _ h1
              | strV s2 => simp at h
              | pyNone => simp at h
          · simp only [pure, Except.pure, Except.ok.injEq, Prod.mk.injEq] at h
            obtain ⟨rfl, rfl⟩ := h
            exact StInv.rfl st
      | Compound children =>
        simp only [iVisit] at h
        cases h1 : iVisitSeq tbl g children st with
        | error e => rw [h1] at h; simp [bind, Except.bind] at h
        | ok st1 =>
          rw [h1] at h
          simp only [bind, Except.bind, pure, Except.pure, Except.ok.injEq,
            Prod.mk.injEq] at h
          obtain ⟨rfl, rfl⟩ := h
          exact ihS tbl children st st1 h1
      | Assign l tok r =>
        simp only [iVisit] at h
        cases hk : valueAttrTV l with
        | none => rw [hk] at h; simp [bind, Except.bind] at h
        | some tv =>
          rw [hk] at h
          simp only [bind, Except.bind, pure, Except.pure] at h
          cases h1 : iVisit tbl g r st with
          | error e => rw [h1] at h; simp at h
          | ok p1 =>
            obtain ⟨v1, st1⟩ := p1
            rw [h1] at h
            simp only [bind, Except.bind] at h
            cases hs : st1.stack with
            | nil => rw [hs] at h; simp at h
            | cons ar rest =>
              rw [hs] at h
              simp only [pure, Except.pure, Except.ok.injEq,
                Prod.mk.injEq] at h
              obtain ⟨rfl, rfl⟩ := h
              obtain ⟨hl, es1, hev, hbal⟩ := ihV tbl r st v1 st1 h1
              refine ⟨?_, es1, ?_, hbal⟩
              · rw [hs] at hl
                simp at hl ⊢
                omega
              · simpa using hev
      | Var tok =>
        simp only [iVisit] at h
        cases hs : st.stack with
        | nil => rw [hs] at h; simp at h
        | cons ar rest =>
          rw [hs] at h
          simp only [pure, Except.pure, Except.ok.injEq, Prod.mk.injEq] at h
          obtain ⟨rfl, rfl⟩ := h
          exact StInv.rfl st
      | ProcedureCall name args tok annot =>
        simp only [iVisit] at h
        cases annot with
        | none => simp at h
        | some sym =>
          cases sym with
          | BuiltinTypeSymbol n => simp at h
          | VarSymbol n ty => simp at h
          | IF_Symbol t => simp at h
          | RawTokenType t => simp at h
          | ProcedureSymbol n id =>
            simp only at h
            cases ht : tableGet tbl id with
            | none => rw [ht] at h; simp at h
            | some info =>
              rw [ht] at h
              simp only [bind, Except.bind] at h
              cases h1 : iBindArgs tbl g (info.formalParams.zip args) [] st with
              | error e => rw [h1] at h; simp at h
              | ok p1 =>
                obtain ⟨members, st1⟩ := p1
                rw [h1] at h
                simp only at h
                cases hba : info.blockAst with
                | none => rw [hba] at h; simp at h
                | some blk =>
                  rw [hba] at h
                  simp only [bind, Except.bind] at h
                  cases hb : iVisit tbl g blk
                      (ilog (ilog (pushAR ⟨name, .PROCEDURE, 2, members⟩ st1)
                        "ENTER: PROCEDURE") "CALL STACK") with
                  | error e => rw [hb] at h; simp at h
                  | ok p2 =>
                    obtain ⟨v2, stb⟩ := p2
                    rw [hb] at h
                    simp only [bind, Except.bind] at h
                    obtain ⟨hl0, es0, hev0, hbal0⟩ := ihB tbl _ _ _ _ _ h1
                    obtain ⟨hl, es1, hev, hbal⟩ := ihV tbl blk _ _ _ hb
                    obtain ⟨a2, rest2, hs2, hs2', he2, _⟩ := popAR_ok h
                    have hstb_stack : stb.stack = a2 :: rest2 := by
                      simpa using hs2
                    have hev' : st'.events = stb.events ++ [StackEv.pop] := by
                      simpa using he2
                    have hlB : stb.stack.length = st1.stack.length + 1 := by
                      simpa using hl
                    have hevB : stb.events
                        = (st1.events ++ [StackEv.push]) ++ es1 := by
                      simpa using hev
                    refine ⟨?_, es0 ++ (StackEv.push :: (es1 ++ [StackEv.pop])),
                      ?_, evBalanced_append hbal0 (evBalanced_wrap hbal)⟩
                    · rw [hs2']
                      rw [hstb_stack] at hlB
                      simp at hlB
                      omega
                    · rw [hev', hevB, hev0]
                      simp [List.append_assoc]
      | IfStatement nm rel thenS elseS =>
        cases rel with
        | Relation lft tokR rgt =>
          simp only [iVisit] at h
          cases h1 : iVisit tbl g lft st with
          | error e => rw [h1] at h; simp [bind, Except.bind] at h
          | ok p1 =>
            obtain ⟨lv, st1⟩ := p1
            rw [h1] at h
            simp only [bind, Except.bind] at h
            have hInv1 := ihV tbl lft st lv st1 h1
            cases hva : valueAttr rgt with
            | none => rw [hva] at h; simp at h
            | some rv =>
              rw [hva] at h
              simp only [bind, Except.bind, pure, Except.pure] at h
              split at h
              case _ =>
                split at h
                · obtain ⟨e1, e2, e3, _⟩ := branchLog_ok _ _ _ _ _ h
                  exact hInv1.trans (StInv.of_eq e1 e3)
                · obtain ⟨e1, e2, e3, _⟩ := elseLog_ok _ _ _ _ h
                  exact hInv1.trans (StInv.of_eq e1 e3)
              case _ =>
                cases hc : pyLtB lv rv with
                | error e => rw [hc] at h; simp [liftRt] at h
                | ok b =>
                  rw [hc] at h
                  simp only [liftRt, bind, Except.bind] at h
                  split at h
                  · obtain ⟨e1, e2, e3, _⟩ := branchLog_ok _ _ _ _ _ h
                    exact hInv1.trans (StInv.of_eq e1 e3)
                  · obtain ⟨e1, e2, e3, _⟩ := elseLog_ok _ _ _ _ h
                    exact hInv1.trans (StInv.of_eq e1 e3)
              case _ =>
                cases hc : pyLeB lv rv with
                | error e => rw [hc] at h; simp [liftRt] at h
                | ok b =>
                  rw [hc] at h
                  simp only [liftRt, bind, Except.bind] at h
                  split at h
                  · obtain ⟨e1, e2, e3, _⟩ := branchLog_ok _ _ _ _ _ h
                    exact hInv1.trans (StInv.of_eq e1 e3)
                  · obtain ⟨e1, e2, e3, _⟩ := elseLog_ok _ _ _ _ h
                    exact hInv1.trans (StInv.of_eq e1 e3)
              case _ =>
                cases hc : pyGtB lv rv with
                | error e => rw [hc] at h; simp [liftRt] at h
                | ok b =>
                  rw [hc] at h
                  simp only [liftRt, bind, Except.bind] at h
                  split at h
                  · obtain ⟨e1, e2, e3, _⟩ := branchLog_ok _ _ _ _ _ h
                    exact hInv1.trans (StInv.of_eq e1 e3)
                  · obtain ⟨e1, e2, e3, _⟩ := elseLog_ok _ _ _ _ h
                    exact hInv1.trans (StInv.of_eq e1 e3)
              case _ =>
                cases hc : pyGeB lv rv with
                | error e => rw [hc] at h; simp [liftRt] at h
                | ok b =>
                  rw [hc] at h
                  simp only [liftRt, bind, Except.bind] at h
                  split at h
                  · obtain ⟨e1, e2, e3, _⟩ := branchLog_ok _ _ _ _ _ h
                    exact hInv1.trans (StInv.of_eq e1 e3)
                  · obtain ⟨e1, e2, e3, _⟩ := elseLog_ok _ _ _ _ h
                    exact hInv1.trans (StInv.of_eq e1 e3)
              case _ =>
                simp only [pure, Except.pure, Except.ok.injEq,
                  Prod.mk.injEq] at h
                obtain ⟨rfl, rfl⟩ := h
                exact hInv1
        | Program a b => simp [iVisit] at h
        | Block a b => simp [iVisit] at h
        | VarDecl a b => simp [iVisit] at h
        | TypeNode a => simp [iVisit] at h
        | ArrayNode a b c => simp [iVisit] at h
        | Param a b => simp [iVisit] at h
        | ProcedureDecl a b c => simp [iVisit] at h
        | ProcedureCall a b c d => simp [iVisit] at h
        | Compound a => simp [iVisit] at h
        | Assign a b c => simp [iVisit] at h
        | IfStatement a b c d => simp [iVisit] at h
        | WhileStatement a b c => simp [iVisit] at h
        | BinOp a b c => simp [iVisit] at h
        | UnaryOp a b => simp [iVisit] at h
        | Num a => simp [iVisit] at h
        | Str a => simp [iVisit] at h
        | Var a => simp [iVisit] at h
        | WRITE a b => simp [iVisit] at h
        | READ a b => simp [iVisit] at h
        | NoOp => simp [iVisit] at h
      | WhileStatement nm rel body =>
        cases rel with
        | Relation lft tokR rgt =>
          simp only [iVisit] at h
          cases h1 : iVisit tbl g lft st with
          | error e => rw [h1] at h; simp [bind, Except.bind] at h
          | ok p1 =>
            obtain ⟨lv, st1⟩ := p1
            rw [h1] at h
            simp only [bind, Except.bind] at h
            have hInv1 := ihV tbl lft st lv st1 h1
            cases hva : valueAttr rgt with
            | none => rw [hva] at h; simp at h
            | some rv =>
              rw [hva] at h
              simp only [bind, Except.bind, pure, Except.pure] at h
              split at h
              case _ =>
                split at h
                · obtain ⟨e1, e2, e3, _⟩ := branchLog_ok _ _ _ _ _ h
                  exact hInv1.trans (StInv.of_eq e1 e3)
                · simp only [pure, Except.pure, Except.ok.injEq,
                    Prod.mk.injEq] at h
                  obtain ⟨rfl, rfl⟩ := h
                  exact hInv1
              case _ =>
                cases hc : pyGtB lv rv with
                | error e => rw [hc] at h; simp [liftRt] at h
                | ok b =>
                  rw [hc] at h
                  simp only [liftRt, bind, Except.bind] at h
                  split at h
                  · obtain ⟨e1, e2, e3, _⟩ := branchLog_ok _ _ _ _ _ h
                    exact hInv1.trans (StInv.of_eq e1 e3)
                  · simp only [pure, Except.pure, Except.ok.injEq,
                      Prod.mk.injEq] at h
                    obtain ⟨rfl, rfl⟩ := h
                    exact hInv1
              case _ =>
                cases hc : pyGeB lv rv with
                | error e => rw [hc] at h; simp [liftRt] at h
                | ok b =>
                  rw [hc] at h
                  simp only [liftRt, bind, Except.bind] at h
                  split at h
                  · obtain ⟨e1, e2, e3, _⟩ := branchLog_ok _ _ _ _ _ h
                    exact hInv1.trans (StInv.of_eq e1 e3)
                  · simp only [pure, Except.pure, Except.ok.injEq,
                      Prod.mk.injEq] at h
                    obtain ⟨rfl, rfl⟩ := h
                    exact hInv1
              case _ =>
                cases hc : pyLtB lv rv with
                | error e => rw [hc] at h; simp [liftRt] at h
                | ok b =>
                  rw [hc] at h
                  simp only [liftRt, bind, Except.bind] at h
                  split at h
                  · obtain ⟨e1, e2, e3, _⟩ := branchLog_ok _ _ _ _ _ h
                    exact hInv1.trans (StInv.of_eq e1 e3)
                  · simp only [pure, Except.pure, Except.ok.injEq,
                      Prod.mk.injEq] at h
                    obtain ⟨rfl, rfl⟩ := h
                    exact hInv1
              case _ =>
                cases hc : pyLeB lv rv with
                | error e => rw [hc] at h; simp [liftRt] at h
                | ok b =>
                  rw [hc] at h
                  simp only [liftRt, bind, Except.bind] at h
                  split at h
                  · obtain ⟨e1, e2, e3, _⟩ := branchLog_ok _ _ _ _ _ h
                    exact hInv1.trans (StInv.of_eq e1 e3)
                  · simp only [pure, Except.pure, Except.ok.injEq,
                      Prod.mk.injEq] at h
                    obtain ⟨rfl, rfl⟩ := h
                    exact hInv1
              case _ =>
                simp only [pure, Except.pure, Except.ok.injEq,
                  Prod.mk.injEq] at h
                obtain ⟨rfl, rfl⟩ := h
                exact hInv1
        | Program a b => simp [iVisit] at h
        | Block a b => simp [iVisit] at h
        | VarDecl a b => simp [iVisit] at h
        | TypeNode a => simp [iVisit] at h
        | ArrayNode a b c => simp [iVisit] at h
        | Param a b => simp [iVisit] at h
        | ProcedureDecl a b c => simp [iVisit] at h
        | ProcedureCall a b c d => simp [iVisit] at h
        | Compound a => simp [iVisit] at h
        | Assign a b c => simp [iVisit] at h
        | IfStatement a b c d => simp [iVisit] at h
        | WhileStatement a b c => simp [iVisit] at h
        | BinOp a b c => simp [iVisit] at h
        | UnaryOp a b => simp [iVisit] at h
        | Num a => simp [iVisit] at h
        | Str a => simp [iVisit] at h
        | Var a => simp [iVisit] at h
        | WRITE a b => simp [iVisit] at h
        | READ a b => simp [iVisit] at h
        | NoOp => simp [iVisit] at h
      | Relation a b c => simp [iVisit] at h
      | ArrayNode a b c => simp [iVisit] at h
      | Param a b => simp [iVisit] at h
    · intro tbl nodes st st' h
      cases nodes with
      | nil =>
        simp only [iVisitSeq, pure, Except.pure, Except.ok.injEq] at h
        subst h
        exact StInv.rfl st
      | cons n rest =>
        simp only [iVisitSeq] at h
        cases h1 : iVisit tbl g n st with
        | error e => rw [h1] at h; simp [bind, Except.bind] at h
        | ok p1 =>
          obtain ⟨v1, st1⟩ := p1
          rw [h1] at h
          simp only [bind, Except.bind] at h
          exact (ihV tbl n st v1 st1 h1).trans (ihS tbl rest st1 st' h)
    · intro tbl pairs acc st ms st' h
      cases pairs with
      | nil =>
        simp only [iBindArgs, pure, Except.pure, Except.ok.injEq,
          Prod.mk.injEq] at h
        obtain ⟨rfl, rfl⟩ := h
        exact StInv.rfl st
      | cons pr rest =>
        obtain ⟨sym, argN⟩ := pr
        simp only [iBindArgs] at h
        cases h1 : iVisit tbl g argN st with
        | error e => rw [h1] at h; simp [bind, Except.bind] at h
        | ok p1 =>
          obtain ⟨v1, st1⟩ := p1
          rw [h1] at h
          simp only [bind, Except.bind] at h
          exact (ihV tbl argN st v1 st1 h1).trans (ihB tbl rest _ st1 ms st' h)

/-- C9 (confirmed): (1) every successful visit restores the call-stack
depth and its push/pop trace is balanced — the depth always equals the
entry depth plus the number of currently active invocations opened within
it; (2) a `Program` run started on an empty stack ends with an **empty
stack** and its whole trace is exactly one `push`, a balanced interior,
and the matching final `pop`; (3) every successful `ProcedureCall` emits,
after its argument-evaluation events, exactly one `push`, a balanced body
trace, and the matching `pop` — one fresh record per invocation; (4)/(5)
the concrete recursive-capable pipeline run on `srcC9` ends with the empty
stack and the exact trace `push, push, pop, pop` (program frame and one
procedure frame, properly nested). -/
theorem C9_call_stack_discipline :
    (∀ (tbl : List (Nat × ProcInfo)) (f : Nat) (node : AST) (st : ISt)
      (v : Value) (st' : ISt),
      iVisit tbl f node st = .ok (v, st') → StInv st st') ∧
    (∀ (tbl : List (Nat × ProcInfo)) (f : Nat) (name : TokenValue) (blk : AST)
      (st : ISt) (v : Value) (st' : ISt),
      st.stack = [] → st.events = [] →
      iVisit tbl f (.Program name blk) st = .ok (v, st') →
      st'.stack = [] ∧
      ∃ inner, st'.events = StackEv.push :: (inner ++ [StackEv.pop]) ∧
        evBalanced inner) ∧
    (∀ (tbl : List (Nat × ProcInfo)) (f : Nat) (name : TokenValue)
      (args : List AST) (tok : Token) (sym : Option PySymbol) (st : ISt)
      (v : Value) (st' : ISt),
      iVisit tbl f (.ProcedureCall name args tok sym) st = .ok (v, st') →
      ∃ pre inner, st'.events
          = st.events ++ pre ++ (StackEv.push :: (inner ++ [StackEv.pop])) ∧
        evBalanced pre ∧ evBalanced inner) ∧
    pipeFinalStack (runPipeline defaultFlags 300 srcC9) = some [] ∧
    pipeEvents (runPipeline defaultFlags 300 srcC9)
      = some [.push, .push, .pop, .pop] := by
  refine ⟨fun tbl f => (iVisit_stack_invariant f).1 tbl, ?_, ?_, by decide,
    by decide⟩
  · intro tbl f name blk st v st' hs he h
    cases f with
    | zero => simp [iVisit] at h
    | succ g =>
      simp only [iVisit] at h
      cases hb : iVisit tbl g blk
          (ilog (pushAR ⟨name, .PROGRAM, 1, []⟩ (ilog st "ENTER: PROGRAM"))
            "CALL STACK") with
      | error e => rw [hb] at h; simp [bind, Except.bind] at h
      | ok p =>
        obtain ⟨v1, stb⟩ := p
        rw [hb] at h
        simp only [bind, Except.bind] at h
        obtain ⟨hl, es1, hev, hbal⟩ :=
          (iVisit_stack_invariant g).1 tbl blk _ _ _ hb
        obtain ⟨a2, rest2, hs2, hs2', he2, _⟩ := popAR_ok h
        have hstb_stack : stb.stack = a2 :: rest2 := by simpa using hs2
        have hev' : st'.events = stb.events ++ [StackEv.pop] := by
          simpa using he2
        have hlB : stb.stack.length = st.stack.length + 1 := by simpa using hl
        have hevB : stb.events = (st.events ++ [StackEv.push]) ++ es1 := by
          simpa using hev
        constructor
        · rw [hs2']
          rw [hstb_stack, hs] at hlB
          simp at hlB
          exact hlB
        · refine ⟨es1, ?_, hbal⟩
          rw [hev', hevB, he]
          simp
  · intro tbl f name args tok sym st v st' h
    cases f with
    | zero => simp [iVisit] at h
    | succ g =>
      simp only [iVisit] at h
      cases sym with
      | none => simp at h
      | some sym =>
        cases sym with
        | BuiltinTypeSymbol n => simp at h
        | VarSymbol n ty => simp at h
        | IF_Symbol t => simp at h
        | RawTokenType t => simp at h
        | ProcedureSymbol n id =>
          simp only at h
          cases ht : tableGet tbl id with
          | none => rw [ht] at h; simp at h
          | some info =>
            rw [ht] at h
            simp only [bind, Except.bind] at h
            cases h1 : iBindArgs tbl g (info.formalParams.zip args) [] st with
            | error e => rw [h1] at h; simp at h
            | ok p1 =>
              obtain ⟨members, st1⟩ := p1
              rw [h1] at h
              simp only at h
              cases hba : info.blockAst with
              | none => rw [hba] at h; simp at h
              | some blk =>
                rw [hba] at h
                simp only [bind, Except.bind] at h
                cases hb : iVisit tbl g blk
                    (ilog (ilog (pushAR ⟨name, .PROCEDURE, 2, members⟩ st1)
                      "ENTER: PROCEDURE") "CALL STACK") with
                | error e => rw [hb] at h; simp at h
                | ok p2 =>
                  obtain ⟨v2, stb⟩ := p2
                  rw [hb] at h
                  simp only [bind, Except.bind] at h
                  obtain ⟨hl0, es0, hev0, hbal0⟩ :=
                    (iVisit_stack_invariant g).2.2 tbl _ _ _ _ _ h1
                  obtain ⟨hl, es1, hev, hbal⟩ :=
                    (iVisit_stack_invariant g).1 tbl blk _ _ _ hb
                  obtain ⟨a2, rest2, hs2, hs2', he2, _⟩ := popAR_ok h
                  have hev' : st'.events = stb.events ++ [StackEv.pop] := by
                    simpa using he2
                  have hevB : stb.events
                      = (st1.events ++ [StackEv.push]) ++ es1 := by
                    simpa using hev
                  refine ⟨es0, es1, ?_, hbal0, hbal⟩
                  rw [hev', hevB, hev0]
                  simp [List.append_assoc]

/-- C9 witness: the stack-discipline theorem applied to the concrete run
of `srcC9` (a program calling a one-parameter procedure): the final stack
depth equals the initial (empty) depth. -/
theorem C9_call_stack_discipline_witness :
    run9.map (fun r => r.2.stack.length) = .ok 0 := by
  cases hr : run9 with
  | error e =>
      have hok : run9ok = true := rfl
      rw [run9ok] at hok
      rw [hr] at hok
      simp at hok
  | ok p =>
      obtain ⟨v, st'⟩ := p
      have hinv := C9_call_stack_discipline.1 tbl9 300 ast9 ist0 v st' hr
      have h1 : st'.stack.length = ist0.stack.length := hinv.1
      have h0 : ist0.stack = ([] : List ActivationRecord) := rfl
      rw [h0] at h1
      simp [Except.map, h1]
